import Mathlib

/-!
Verification development for the event/notification primitive of
`Source/BansheeUtility/Include/BsEvent.h` (BansheeEngine).

The C++ core is shallowly embedded as follows.

* A connection record (`BaseConnectionData` together with the typed
  `TEvent::ConnectionData`) becomes `ConnData`: `isActive`, `handleLinks`
  (a `UINT32`, modelled as `Nat` reduced mod `2^32` wherever the C++
  increments or decrements it) and `func` (the stored `std::function`,
  modelled as `Option Nat`: `some c` carries an opaque callback payload id,
  `none` is the empty function `nullptr`).
* Records live in a heap `store : Nat → ConnData` addressed by stable ids;
  `fresh` is the next id `bs_new` would hand out.  The two intrusive
  doubly-linked lists (`mConnections`, `mFreeConnections`) are represented
  by the lists of record ids in head-to-tail order; the pointer splices of
  `EventInternalData::free` on a well-formed doubly-linked list amount to
  erasing the id from the active list and consing it onto the free list,
  which is exactly how `EventInternalData.free` below is written.
* `trigger` (`TEvent::operator()`) is reentrant in the source: a callback
  may call back into `connect`/`disconnect` on the same registry (the lock
  is recursive).  Callback behaviour is therefore modelled by an
  environment `env : Nat → List TAction` mapping a callback payload id to
  the registry operations the callback performs when invoked.  The walk
  itself follows the source line by line: read the head pointer, snapshot
  `next` *before* invoking the callback, skip records whose `func` is
  empty, continue at the snapshotted `next`.  A pointer dereference
  `conn->next` is `nextPtr`: the successor of the id in whichever list
  currently holds it.  The loop takes fuel (the C++ loop is not
  structurally recursive once callbacks mutate the list); the initial
  active-list length is sufficient fuel in every situation the claims
  cover, since the walk only ever advances into the suffix of the list it
  started on.

The mutex (`RecursiveMutex`) serialises every operation; operations are
therefore modelled as atomic state transformers and sequences of
operations as folds over them.
-/

namespace BansheeEvent

/-- `UINT32` modulus: `handleLinks` is a `UINT32` in the source. -/
def UINT32LIM : Nat := 4294967296

/-- `handleLinks++` on a `UINT32`. -/
def incWrap (n : Nat) : Nat := (n + 1) % UINT32LIM

/-- `handleLinks--` on a `UINT32`. -/
def decWrap (n : Nat) : Nat := (n + (UINT32LIM - 1)) % UINT32LIM

/-- One connection record: `BaseConnectionData` plus the typed
`ConnectionData`'s stored callback.  `func = none` is an empty
`std::function`. -/
structure ConnData where
  isActive : Bool
  handleLinks : Nat
  func : Option Nat
deriving DecidableEq, Repr

/-- Field values written by the `BaseConnectionData` constructor
(`prev`/`next` are represented by list position): `isActive = true`,
`handleLinks = 0`, empty callback. -/
def ConnData.init : ConnData := ⟨true, 0, none⟩

/-- Placeholder record for ids that were never allocated. -/
def ConnData.unalloc : ConnData := ⟨false, 0, none⟩

/-- `EventInternalData`: the record heap, the active list `mConnections`,
the free list `mFreeConnections` (both as id lists in head-to-tail order)
and the allocation counter. -/
structure EventData where
  store : Nat → ConnData
  mConnections : List Nat
  mFreeConnections : List Nat
  fresh : Nat

/-- A freshly constructed `EventInternalData`: both list heads null. -/
def emptyEventData : EventData :=
  ⟨fun _ => ConnData.unalloc, [], [], 0⟩

/-- Write record `i` in the heap. -/
def setStore (s : EventData) (i : Nat) (c : ConnData) : EventData :=
  { s with store := fun j => if j = i then c else s.store j }

/-- `ConnectionData::deactivate` (the typed override): `func = nullptr`,
then `BaseConnectionData::deactivate` sets `isActive = false`. -/
def deactivate (s : EventData) (i : Nat) : EventData :=
  setStore s i { s.store i with isActive := false, func := none }

/-- `HEvent`'s explicit constructor body / any `handleLinks++` site. -/
def incLinks (s : EventData) (i : Nat) : EventData :=
  setStore s i { s.store i with handleLinks := incWrap (s.store i).handleLinks }

namespace EventInternalData

/-- `EventInternalData::free`: unlink `conn` from the active list (the
four pointer writes, on a well-formed doubly-linked list, remove exactly
this node) and push it on the free-list head.  The trailing in-place
destructor call writes no field. -/
def free (s : EventData) (i : Nat) : EventData :=
  { s with mConnections := s.mConnections.erase i,
           mFreeConnections := i :: s.mFreeConnections }

/-- `EventInternalData::disconnect`: deactivate, `handleLinks--`, and
reclaim the record when the count reaches zero. -/
def disconnect (s : EventData) (i : Nat) : EventData :=
  let s1 := deactivate s i
  let s2 := setStore s1 i { s1.store i with handleLinks := decWrap (s1.store i).handleLinks }
  if (s2.store i).handleLinks = 0 then free s2 i else s2

/-- `EventInternalData::freeHandle`: `handleLinks--`; reclaim only when
the count reaches zero *and* the record is already inactive. -/
def freeHandle (s : EventData) (i : Nat) : EventData :=
  let s1 := setStore s i { s.store i with handleLinks := decWrap (s.store i).handleLinks }
  if (s1.store i).handleLinks = 0 ∧ (s1.store i).isActive = false then free s1 i else s1

/-- The loop body sequence of `EventInternalData::clear`, walking the
snapshot of the active list (the C++ loop saves `next` before mutating,
and each iteration only unlinks the node it is at, so the pointer walk
visits exactly the initial list). -/
def clearLoop (s : EventData) : List Nat → EventData
  | [] => s
  | i :: rest =>
    let s1 := deactivate s i
    let s2 := if (s1.store i).handleLinks = 0 then free s1 i else s1
    clearLoop s2 rest

/-- `EventInternalData::clear`. -/
def clear (s : EventData) : EventData :=
  clearLoop s s.mConnections

end EventInternalData

namespace TEvent

/-- `TEvent::connect`: pop the free list head if available (placement-new
reinitialises the record; the source's subsequent null-check on the
re-constructed `next` is dead code since the constructor nulled it), else
`bs_new` a record; link it at the active-list head, store the callback,
and return the record id; the returned `HEvent`'s constructor does
`handleLinks++`. -/
def connect (s : EventData) (c : Nat) : EventData × Nat :=
  let popped : EventData × Nat :=
    match s.mFreeConnections with
    | connData :: rest =>
      ({ setStore s connData ConnData.init with mFreeConnections := rest }, connData)
    | [] =>
      ({ setStore s s.fresh ConnData.init with fresh := s.fresh + 1 }, s.fresh)
  let s1 := popped.1
  let connData := popped.2
  let s2 := { setStore s1 connData { s1.store connData with func := some c } with
              mConnections := connData :: s1.mConnections }
  (incLinks s2 connData, connData)

/-- `TEvent::empty`: `mConnections == nullptr`. -/
def empty (s : EventData) : Bool :=
  s.mConnections.isEmpty

end TEvent

/-- What a callback may do when invoked during a trigger: call
`HEvent::disconnect` on a handle referencing record `i` (which forwards to
`EventInternalData::disconnect`), or call `TEvent::connect` with a new
callback payload. -/
inductive TAction where
  | disconnect (i : Nat)
  | connect (c : Nat)
deriving DecidableEq, Repr

/-- Run a callback body: the sequence of registry operations it performs. -/
def runActions (s : EventData) : List TAction → EventData
  | [] => s
  | TAction.disconnect i :: rest => runActions (EventInternalData.disconnect s i) rest
  | TAction.connect c :: rest => runActions (TEvent.connect s c).1 rest

/-- Successor of `i` in a list (the node's `next` pointer within the list
that holds it). -/
def succIn : List Nat → Nat → Option Nat
  | [], _ => none
  | [_], _ => none
  | a :: b :: rest, i => if a = i then some b else succIn (b :: rest) i

/-- Dereference `conn->next` in the current heap: the successor of `i` in
whichever list currently owns the record. -/
def nextPtr (s : EventData) (i : Nat) : Option Nat :=
  if i ∈ s.mConnections then succIn s.mConnections i
  else succIn s.mFreeConnections i

namespace TEvent

/-- The walk of `TEvent::operator()`: at node `conn`, save
`next = conn->next` *before* the callback runs, invoke `conn->func` if it
is non-empty (its body is `env` applied to the callback payload), then
continue at the saved `next`.  Returns the final state and the trace of
record ids whose callback was invoked.  `fuel` bounds the number of loop
iterations. -/
def triggerLoop (env : Nat → List TAction) : Nat → EventData → Option Nat →
    EventData × List Nat
  | _, s, none => (s, [])
  | 0, s, some _ => (s, [])
  | fuel + 1, s, some i =>
    let next := nextPtr s i
    match (s.store i).func with
    | none => triggerLoop env fuel s next
    | some c =>
      let s1 := runActions s (env c)
      let r := triggerLoop env fuel s1 next
      (r.1, i :: r.2)

/-- `TEvent::operator()`: start the walk at the active-list head. -/
def trigger (env : Nat → List TAction) (s : EventData) : EventData × List Nat :=
  triggerLoop env s.mConnections.length s s.mConnections.head?

end TEvent

/-- An environment of callbacks that touch nothing (plain notification
callbacks). -/
def pureEnv : Nat → List TAction := fun _ => []

/-- `HEvent`: the subscription handle.  `mConnection` is its record
pointer (`none` = null); `mEventData` keeps the registry alive and is
represented by passing the registry state explicitly. -/
structure HEvent where
  mConnection : Option Nat
deriving DecidableEq, Repr

namespace HEvent

/-- The explicit `HEvent(eventData, connection)` constructor:
`connection->handleLinks++`. -/
def ofConn (s : EventData) (i : Nat) : EventData × HEvent :=
  (incLinks s i, ⟨some i⟩)

/-- `HEvent::operator=`: overwrite `mConnection`/`mEventData` with the
right-hand side's and do `handleLinks++` on the newly referenced record.
The source releases no reference held by the left-hand side before
overwriting. -/
def assign (s : EventData) (_lhs rhs : HEvent) : EventData × HEvent :=
  match rhs.mConnection with
  | some i => (incLinks s i, ⟨some i⟩)
  | none => (s, ⟨none⟩)

/-- `HEvent::disconnect`: forward to `EventInternalData::disconnect` and
null the handle's own reference (so a second call is a no-op). -/
def disconn (s : EventData) (h : HEvent) : EventData × HEvent :=
  match h.mConnection with
  | some i => (EventInternalData.disconnect s i, ⟨none⟩)
  | none => (s, h)

/-- `HEvent::~HEvent`: release the reference through
`EventInternalData::freeHandle` if one is still held. -/
def destroy (s : EventData) (h : HEvent) : EventData :=
  match h.mConnection with
  | some i => EventInternalData.freeHandle s i
  | none => s

end HEvent

/-- Run `TEvent::connect` for each callback of `cs` in order, starting
from `s` (only the registry state; the returned handles each hold one
link, already counted by the `HEvent` constructor inside `connect`). -/
def connectFrom (s : EventData) (cs : List Nat) : EventData :=
  cs.foldl (fun t c => (TEvent.connect t c).1) s

/-- Connect the callbacks of `cs` in order on a fresh registry.  Record
ids are handed out as `0, 1, …`, so record `k` stores callback `cs[k]`
and the active list ends up holding `cs.length - 1, …, 1, 0`. -/
def connectList (cs : List Nat) : EventData :=
  connectFrom emptyEventData cs

/-- Detach record `i` through a second handle: construct an extra
`HEvent` on it (`handleLinks++`) and call `HEvent::disconnect` through
that handle.  On a record with one prior handle this leaves the record
linked but deactivated (`handleLinks` back to 1, callback cleared). -/
def detachVia (s : EventData) (i : Nat) : EventData :=
  EventInternalData.disconnect (incLinks s i) i

/-- Detach (via `detachVia`) every record of `L` selected by `D`. -/
def markD (s : EventData) (D : Nat → Bool) (L : List Nat) : EventData :=
  L.foldl (fun t i => if D i then detachVia t i else t) s

/-- Callback environment for self-disconnection: the callback stored on
record `k` (payload `k`) disconnects its own handle exactly when `D k`. -/
def selfDiscEnv (D : Nat → Bool) : Nat → List TAction :=
  fun k => if D k then [TAction.disconnect k] else []

/-- Callback environment in which only the callback of record `k`
(payload `k`) acts, disconnecting the handle of record `j`. -/
def oneDiscEnv (k j : Nat) : Nat → List TAction :=
  fun x => if x = k then [TAction.disconnect j] else []

/-- Callback environment in which only the callback of record `k`
(payload `k`) acts, connecting a new subscription with payload `p`. -/
def oneConnEnv (k p : Nat) : Nat → List TAction :=
  fun x => if x = k then [TAction.connect p] else []

/-- The registry operations of the claims' operation sequences.
`disconnect i` / `releaseHandle i` act through a live handle referencing
record `i` (`HEvent::disconnect` resp. `~HEvent`); they are no-ops when
no such handle exists, matching the null check in `HEvent`. -/
inductive Op where
  | connect (c : Nat)
  | disconnect (i : Nat)
  | releaseHandle (i : Nat)
  | clear
  | trigger
deriving DecidableEq, Repr

/-- Apply one operation to the registry state paired with the multiset of
live handles (the record ids the outstanding `HEvent`s reference; no
handle copies occur in these sequences, so each `connect` contributes one
handle and `disconnect`/`releaseHandle` consume it). -/
def applyOp : EventData × List Nat → Op → EventData × List Nat
  | (s, hs), Op.connect c => ((TEvent.connect s c).1, (TEvent.connect s c).2 :: hs)
  | (s, hs), Op.disconnect i =>
      if i ∈ hs then (EventInternalData.disconnect s i, hs.erase i) else (s, hs)
  | (s, hs), Op.releaseHandle i =>
      if i ∈ hs then (EventInternalData.freeHandle s i, hs.erase i) else (s, hs)
  | (s, hs), Op.clear => (EventInternalData.clear s, hs)
  | (s, hs), Op.trigger => ((TEvent.trigger pureEnv s).1, hs)

/-- Run an operation sequence on a fresh registry with no handles. -/
def applyOps (ops : List Op) : EventData × List Nat :=
  ops.foldl applyOp (emptyEventData, [])

/-- The reuse scenario of the spec: connect the callbacks of `cs`,
disconnect every one of the resulting subscriptions, then connect the
callbacks of `cs2`. -/
def recycleOps (cs cs2 : List Nat) : List Op :=
  (cs.map Op.connect) ++ ((List.range cs.length).map Op.disconnect) ++
    (cs2.map Op.connect)

/-- What a trigger-time action may touch relative to the not-yet-visited
suffix `rest` of the walk: a disconnect may target the current node or
any node outside the remaining suffix (in particular any already-visited
node); a connect is unrestricted. -/
def ActOk (rest : List Nat) : TAction → Prop
  | TAction.disconnect j => j ∉ rest
  | TAction.connect _ => True

/-- Well-formedness of the not-yet-visited suffix of a trigger walk:
it is the tail end of the active list, has no duplicate ids, and its ids
are on neither the free list nor unallocated. -/
structure SufInv (s : EventData) (suf : List Nat) : Prop where
  split : ∃ front, s.mConnections = front ++ suf ∧ ∀ i ∈ suf, i ∉ front
  nodup : suf.Nodup
  notFree : ∀ i ∈ suf, i ∉ s.mFreeConnections
  bound : ∀ i ∈ suf, i < s.fresh

/-- The callbacks along a walk suffix only perform actions that leave the
rest of the suffix intact (`fs` is the callback payload stored on each
record when the trigger started). -/
def WalkOk (env : Nat → List TAction) (fs : Nat → Option Nat) : List Nat → Prop
  | [] => True
  | i :: rest => (∀ c, fs i = some c → ∀ a ∈ env c, ActOk rest a) ∧ WalkOk env fs rest

/-- Reference description of the state transformation a trigger walk
performs: fold the (initially stored) callbacks' actions over the visited
ids. -/
def walkFold (env : Nat → List TAction) (fs : Nat → Option Nat) :
    EventData → List Nat → EventData
  | s, [] => s
  | s, i :: rest =>
    match fs i with
    | none => walkFold env fs s rest
    | some c => walkFold env fs (runActions s (env c)) rest

/-- `EventRegistry` well-formedness over an operation sequence: the state
of the two lists, the heap and the outstanding handles `hs`. -/
structure WFS (s : EventData) (hs : List Nat) : Prop where
  nodupA : s.mConnections.Nodup
  nodupF : s.mFreeConnections.Nodup
  disjAF : ∀ i ∈ s.mConnections, i ∉ s.mFreeConnections
  boundA : ∀ i ∈ s.mConnections, i < s.fresh
  boundF : ∀ i ∈ s.mFreeConnections, i < s.fresh
  cover : ∀ i, i < s.fresh → i ∈ s.mConnections ∨ i ∈ s.mFreeConnections
  nodupH : hs.Nodup
  hSub : ∀ i ∈ hs, i ∈ s.mConnections
  linksEq : ∀ i, (s.store i).handleLinks = if i ∈ hs then 1 else 0
  freeInactive : ∀ i ∈ s.mFreeConnections, (s.store i).isActive = false
  activeLive : ∀ i ∈ s.mConnections, (s.store i).isActive = false → i ∈ hs

/-! ### Basic lemmas about the heap and the individual operations -/

@[simp] theorem setStore_store_self (s : EventData) (i : Nat) (c : ConnData) :
    (setStore s i c).store i = c := by simp [setStore]

theorem setStore_store_ne (s : EventData) (i : Nat) (c : ConnData)
    {j : Nat} (h : j ≠ i) : (setStore s i c).store j = s.store j := by
  simp [setStore, h]

@[simp] theorem setStore_mConnections (s : EventData) (i : Nat) (c : ConnData) :
    (setStore s i c).mConnections = s.mConnections := rfl

@[simp] theorem setStore_mFreeConnections (s : EventData) (i : Nat) (c : ConnData) :
    (setStore s i c).mFreeConnections = s.mFreeConnections := rfl

@[simp] theorem setStore_fresh (s : EventData) (i : Nat) (c : ConnData) :
    (setStore s i c).fresh = s.fresh := rfl

theorem incWrap_zero : incWrap 0 = 1 := by decide

theorem decWrap_one : decWrap 1 = 0 := by decide

theorem decWrap_eq_sub (n : Nat) (h1 : 0 < n) (h2 : n < UINT32LIM) :
    decWrap n = n - 1 := by
  have h3 : n + (UINT32LIM - 1) = (n - 1) + 1 * UINT32LIM := by
    unfold UINT32LIM at h2 ⊢; omega
  have h4 : n - 1 < UINT32LIM := by omega
  rw [decWrap, h3, Nat.add_mul_mod_self_right, Nat.mod_eq_of_lt h4]

theorem disconnect_one (s : EventData) (i : Nat)
    (h : (s.store i).handleLinks = 1) :
    (EventInternalData.disconnect s i).mConnections = s.mConnections.erase i ∧
    (EventInternalData.disconnect s i).mFreeConnections = i :: s.mFreeConnections ∧
    (EventInternalData.disconnect s i).fresh = s.fresh ∧
    (EventInternalData.disconnect s i).store i = ⟨false, 0, none⟩ ∧
    ∀ j, j ≠ i → (EventInternalData.disconnect s i).store j = s.store j := by
  unfold EventInternalData.disconnect
  simp only [deactivate, setStore_store_self, h, decWrap_one, if_pos rfl,
    EventInternalData.free]
  refine ⟨rfl, rfl, rfl, by simp, ?_⟩
  intro j hj
  simp [setStore, hj]

theorem disconnect_many (s : EventData) (i : Nat) (n : Nat)
    (h : (s.store i).handleLinks = n) (h1 : 1 < n) (h2 : n < UINT32LIM) :
    (EventInternalData.disconnect s i).mConnections = s.mConnections ∧
    (EventInternalData.disconnect s i).mFreeConnections = s.mFreeConnections ∧
    (EventInternalData.disconnect s i).fresh = s.fresh ∧
    (EventInternalData.disconnect s i).store i = ⟨false, n - 1, none⟩ ∧
    ∀ j, j ≠ i → (EventInternalData.disconnect s i).store j = s.store j := by
  have hd : decWrap n = n - 1 := decWrap_eq_sub n (by omega) h2
  have hne : ¬(n - 1 = 0) := by omega
  unfold EventInternalData.disconnect
  simp only [deactivate, setStore_store_self, h, hd, if_neg hne]
  refine ⟨rfl, rfl, rfl, by simp, ?_⟩
  intro j hj
  simp [setStore, hj]

theorem disconnect_effects (s : EventData) (j : Nat) :
    ((EventInternalData.disconnect s j).mConnections = s.mConnections ∨
      (EventInternalData.disconnect s j).mConnections = s.mConnections.erase j) ∧
    ((EventInternalData.disconnect s j).mFreeConnections = s.mFreeConnections ∨
      (EventInternalData.disconnect s j).mFreeConnections = j :: s.mFreeConnections) ∧
    (EventInternalData.disconnect s j).fresh = s.fresh ∧
    ∀ i, i ≠ j → (EventInternalData.disconnect s j).store i = s.store i := by
  by_cases hz : decWrap ((s.store j).handleLinks) = 0
  · refine ⟨Or.inr ?_, Or.inr ?_, ?_, ?_⟩ <;>
      simp [EventInternalData.disconnect, deactivate, EventInternalData.free,
        setStore, hz]
    intro i hi
    simp [hi]
  · refine ⟨Or.inl ?_, Or.inl ?_, ?_, ?_⟩ <;>
      simp [EventInternalData.disconnect, deactivate, setStore, hz]
    intro i hi
    simp [hi]

theorem freeHandle_active (s : EventData) (i : Nat) (n : Nat)
    (ha : (s.store i).isActive = true) (h : (s.store i).handleLinks = n)
    (h1 : 0 < n) (h2 : n < UINT32LIM) :
    (EventInternalData.freeHandle s i).mConnections = s.mConnections ∧
    (EventInternalData.freeHandle s i).mFreeConnections = s.mFreeConnections ∧
    (EventInternalData.freeHandle s i).fresh = s.fresh ∧
    (EventInternalData.freeHandle s i).store i = { s.store i with handleLinks := n - 1 } ∧
    ∀ j, j ≠ i → (EventInternalData.freeHandle s i).store j = s.store j := by
  have hd : decWrap n = n - 1 := decWrap_eq_sub n h1 h2
  unfold EventInternalData.freeHandle
  simp only [setStore_store_self, h, hd, ha]
  rw [if_neg (by simp)]
  refine ⟨rfl, rfl, rfl, by simp, ?_⟩
  intro j hj
  simp [setStore, hj]

theorem freeHandle_reclaim (s : EventData) (i : Nat)
    (ha : (s.store i).isActive = false) (h : (s.store i).handleLinks = 1) :
    (EventInternalData.freeHandle s i).mConnections = s.mConnections.erase i ∧
    (EventInternalData.freeHandle s i).mFreeConnections = i :: s.mFreeConnections ∧
    (EventInternalData.freeHandle s i).fresh = s.fresh ∧
    (EventInternalData.freeHandle s i).store i = { s.store i with handleLinks := 0 } ∧
    ∀ j, j ≠ i → (EventInternalData.freeHandle s i).store j = s.store j := by
  unfold EventInternalData.freeHandle
  simp only [setStore_store_self, h, decWrap_one, ha]
  rw [if_pos (by simp)]
  simp only [EventInternalData.free]
  refine ⟨rfl, rfl, rfl, by simp, ?_⟩
  intro j hj
  simp [setStore, hj]

theorem connect_fresh (s : EventData) (c : Nat) (h : s.mFreeConnections = []) :
    (TEvent.connect s c).2 = s.fresh ∧
    (TEvent.connect s c).1.mConnections = s.fresh :: s.mConnections ∧
    (TEvent.connect s c).1.mFreeConnections = [] ∧
    (TEvent.connect s c).1.fresh = s.fresh + 1 ∧
    (TEvent.connect s c).1.store s.fresh = ⟨true, 1, some c⟩ ∧
    ∀ j, j ≠ s.fresh → (TEvent.connect s c).1.store j = s.store j := by
  refine ⟨?_, ?_, ?_, ?_, ?_, ?_⟩ <;>
    simp [TEvent.connect, h, incLinks, setStore, ConnData.init, incWrap_zero]
  intro j hj
  simp [hj]

theorem connect_pop (s : EventData) (c : Nat) (f : Nat) (rest : List Nat)
    (h : s.mFreeConnections = f :: rest) :
    (TEvent.connect s c).2 = f ∧
    (TEvent.connect s c).1.mConnections = f :: s.mConnections ∧
    (TEvent.connect s c).1.mFreeConnections = rest ∧
    (TEvent.connect s c).1.fresh = s.fresh ∧
    (TEvent.connect s c).1.store f = ⟨true, 1, some c⟩ ∧
    ∀ j, j ≠ f → (TEvent.connect s c).1.store j = s.store j := by
  refine ⟨?_, ?_, ?_, ?_, ?_, ?_⟩ <;>
    simp [TEvent.connect, h, incLinks, setStore, ConnData.init, incWrap_zero]
  intro j hj
  simp [hj]

/-! ### The trigger walk -/

theorem succIn_append (front : List Nat) (i : Nat) (rest : List Nat)
    (h : i ∉ front) : succIn (front ++ i :: rest) i = rest.head? := by
  induction front with
  | nil =>
    cases rest with
    | nil => rfl
    | cons b r => simp [succIn]
  | cons a front ih =>
    have ha : ¬(a = i) := fun e => h (e ▸ List.mem_cons_self a front)
    cases hf : front ++ i :: rest with
    | nil => simp at hf
    | cons b r =>
      rw [List.cons_append, hf, succIn, if_neg ha, ← hf]
      exact ih fun hm => h (List.mem_cons_of_mem a hm)

theorem SufInv_tail {s : EventData} {i : Nat} {rest : List Nat}
    (h : SufInv s (i :: rest)) : SufInv s rest := by
  obtain ⟨⟨front, hsp, hnf⟩, hnd, hfree, hb⟩ := h
  refine ⟨⟨front ++ [i], by rw [hsp]; simp, ?_⟩, (List.nodup_cons.mp hnd).2,
    fun x hx => hfree x (List.mem_cons_of_mem i hx),
    fun x hx => hb x (List.mem_cons_of_mem i hx)⟩
  intro x hx hmem
  rcases List.mem_append.mp hmem with h1 | h2
  · exact hnf x (List.mem_cons_of_mem i hx) h1
  · have hxi : x = i := by simpa using h2
    exact (List.nodup_cons.mp hnd).1 (hxi ▸ hx)

theorem SufInv_of_whole (s : EventData) (hnd : s.mConnections.Nodup)
    (hfree : ∀ i ∈ s.mConnections, i ∉ s.mFreeConnections)
    (hb : ∀ i ∈ s.mConnections, i < s.fresh) : SufInv s s.mConnections :=
  ⟨⟨[], by simp, by simp⟩, hnd, hfree, hb⟩

theorem disconnect_pres_SufInv {s : EventData} {rest : List Nat} {j : Nat}
    (hj : j ∉ rest) (h : SufInv s rest) :
    SufInv (EventInternalData.disconnect s j) rest := by
  obtain ⟨⟨front, hsp, hnf⟩, hnd, hfree, hb⟩ := h
  obtain ⟨hmc, hmf, hfr, _⟩ := disconnect_effects s j
  refine ⟨?_, hnd, ?_, ?_⟩
  · rcases hmc with e | e
    · exact ⟨front, by rw [e, hsp], hnf⟩
    · refine ⟨front.erase j, ?_, ?_⟩
      · rw [e, hsp]
        by_cases hjf : j ∈ front
        · rw [List.erase_append_left _ hjf]
        · rw [List.erase_append_right _ hjf, List.erase_of_not_mem hj,
            List.erase_of_not_mem hjf]
      · exact fun x hx hm => hnf x hx (List.mem_of_mem_erase hm)
  · intro x hx
    rcases hmf with e | e
    · rw [e]; exact hfree x hx
    · rw [e]
      intro hm
      rcases List.mem_cons.mp hm with rfl | hm2
      · exact hj hx
      · exact hfree x hx hm2
  · intro x hx
    rw [hfr]
    exact hb x hx

theorem disconnect_pres_funcs {s : EventData} {rest : List Nat} {j : Nat}
    (hj : j ∉ rest) (fs : Nat → Option Nat)
    (hfs : ∀ i ∈ rest, (s.store i).func = fs i) :
    ∀ i ∈ rest, ((EventInternalData.disconnect s j).store i).func = fs i := by
  intro i hi
  have hne : i ≠ j := fun e => hj (e ▸ hi)
  rw [(disconnect_effects s j).2.2.2 i hne]
  exact hfs i hi

theorem connect_pres {s : EventData} {rest : List Nat} (c : Nat)
    (h : SufInv s rest) (fs : Nat → Option Nat)
    (hfs : ∀ i ∈ rest, (s.store i).func = fs i) :
    SufInv (TEvent.connect s c).1 rest ∧
    (∀ i ∈ rest, ((TEvent.connect s c).1.store i).func = fs i) := by
  obtain ⟨⟨front, hsp, hnf⟩, hnd, hfree, hb⟩ := h
  cases hc : s.mFreeConnections with
  | nil =>
    obtain ⟨_, hmc, hmf, hfr, _, hst⟩ := connect_fresh s c hc
    have hne : ∀ x ∈ rest, x ≠ s.fresh := fun x hx e => absurd (hb x hx) (by omega)
    refine ⟨⟨⟨s.fresh :: front, by rw [hmc, hsp]; rfl, ?_⟩, hnd, ?_, ?_⟩, ?_⟩
    · intro x hx hm
      rcases List.mem_cons.mp hm with e | hm2
      · exact hne x hx e
      · exact hnf x hx hm2
    · intro x hx
      rw [hmf]
      exact List.not_mem_nil x
    · intro x hx
      rw [hfr]
      exact lt_trans (hb x hx) (by omega)
    · intro x hx
      rw [hst x (hne x hx)]
      exact hfs x hx
  | cons f restF =>
    obtain ⟨_, hmc, hmf, hfr, _, hst⟩ := connect_pop s c f restF hc
    have hne : ∀ x ∈ rest, x ≠ f := by
      intro x hx e
      exact hfree x hx (by rw [hc]; exact e ▸ List.mem_cons_self f restF)
    refine ⟨⟨⟨f :: front, by rw [hmc, hsp]; rfl, ?_⟩, hnd, ?_, ?_⟩, ?_⟩
    · intro x hx hm
      rcases List.mem_cons.mp hm with e | hm2
      · exact hne x hx e
      · exact hnf x hx hm2
    · intro x hx
      rw [hmf]
      intro hm
      exact hfree x hx (by rw [hc]; exact List.mem_cons_of_mem f hm)
    · intro x hx
      rw [hfr]
      exact hb x hx
    · intro x hx
      rw [hst x (hne x hx)]
      exact hfs x hx

theorem runActions_pres {rest : List Nat} (fs : Nat → Option Nat) :
    ∀ (acts : List TAction) (s : EventData), (∀ a ∈ acts, ActOk rest a) →
    SufInv s rest → (∀ i ∈ rest, (s.store i).func = fs i) →
    SufInv (runActions s acts) rest ∧
    (∀ i ∈ rest, ((runActions s acts).store i).func = fs i) := by
  intro acts
  induction acts with
  | nil => exact fun s _ h1 h2 => ⟨h1, h2⟩
  | cons a acts ih =>
    intro s hok h1 h2
    cases a with
    | disconnect j =>
      have hj : j ∉ rest := hok _ (List.mem_cons_self _ _)
      exact ih _ (fun a ha => hok a (List.mem_cons_of_mem _ ha))
        (disconnect_pres_SufInv hj h1) (disconnect_pres_funcs hj fs h2)
    | connect c =>
      obtain ⟨h1n, h2n⟩ := connect_pres c h1 fs h2
      exact ih _ (fun a ha => hok a (List.mem_cons_of_mem _ ha)) h1n h2n

theorem triggerLoop_none (env : Nat → List TAction) (fuel : Nat) (s : EventData) :
    TEvent.triggerLoop env fuel s none = (s, []) := by
  cases fuel <;> rfl

theorem triggerLoop_succ (env : Nat → List TAction) (m : Nat) (s : EventData)
    (i : Nat) :
    TEvent.triggerLoop env (m + 1) s (some i) =
      (match (s.store i).func with
       | none => TEvent.triggerLoop env m s (nextPtr s i)
       | some c =>
         ((TEvent.triggerLoop env m (runActions s (env c)) (nextPtr s i)).1,
          i :: (TEvent.triggerLoop env m (runActions s (env c)) (nextPtr s i)).2)) :=
  rfl

theorem walkFold_cons (env : Nat → List TAction) (fs : Nat → Option Nat)
    (s : EventData) (i : Nat) (rest : List Nat) :
    walkFold env fs s (i :: rest) =
      (match fs i with
       | none => walkFold env fs s rest
       | some c => walkFold env fs (runActions s (env c)) rest) :=
  rfl

theorem walkFold_cons_none (env : Nat → List TAction) (fs : Nat → Option Nat)
    (s : EventData) (i : Nat) (rest : List Nat) (hc : fs i = none) :
    walkFold env fs s (i :: rest) = walkFold env fs s rest := by
  rw [walkFold_cons, hc]

theorem walkFold_cons_some (env : Nat → List TAction) (fs : Nat → Option Nat)
    (s : EventData) (i : Nat) (rest : List Nat) (c : Nat) (hc : fs i = some c) :
    walkFold env fs s (i :: rest) =
      walkFold env fs (runActions s (env c)) rest := by
  rw [walkFold_cons, hc]

theorem triggerLoop_walk (env : Nat → List TAction) (fs : Nat → Option Nat) :
    ∀ (suf : List Nat) (fuel : Nat) (s : EventData), suf.length ≤ fuel →
    SufInv s suf → (∀ i ∈ suf, (s.store i).func = fs i) → WalkOk env fs suf →
    TEvent.triggerLoop env fuel s suf.head? =
      (walkFold env fs s suf, suf.filter (fun i => (fs i).isSome)) := by
  intro suf
  induction suf with
  | nil =>
    intro fuel s _ _ _ _
    rw [List.head?_nil, triggerLoop_none]
    rfl
  | cons i rest ih =>
    intro fuel s hfuel hinv hfs hok
    obtain ⟨m, rfl⟩ : ∃ m, fuel = m + 1 := by
      cases fuel with
      | zero => simp at hfuel
      | succ m => exact ⟨m, rfl⟩
    have hm : rest.length ≤ m := by
      simpa [Nat.succ_le_succ_iff] using hfuel
    have hmem : i ∈ s.mConnections := by
      obtain ⟨front, hsp, _⟩ := hinv.split
      rw [hsp]
      simp
    have hnext : nextPtr s i = rest.head? := by
      obtain ⟨front, hsp, hnf⟩ := hinv.split
      rw [nextPtr, if_pos hmem, hsp,
        succIn_append front i rest (hnf i (List.mem_cons_self i rest))]
    have hfi : (s.store i).func = fs i := hfs i (List.mem_cons_self i rest)
    rw [List.head?_cons, triggerLoop_succ, hfi, hnext]
    cases hc : fs i with
    | none =>
      show TEvent.triggerLoop env m s rest.head? = _
      rw [ih m s hm (SufInv_tail hinv)
        (fun x hx => hfs x (List.mem_cons_of_mem i hx)) hok.2,
        walkFold_cons_none env fs s i rest hc]
      simp [hc]
    | some c =>
      show ((TEvent.triggerLoop env m (runActions s (env c)) rest.head?).1,
        i :: (TEvent.triggerLoop env m (runActions s (env c)) rest.head?).2) = _
      have hacts : ∀ a ∈ env c, ActOk rest a := hok.1 c hc
      obtain ⟨h1, h2⟩ := runActions_pres fs (env c) s hacts (SufInv_tail hinv)
        (fun x hx => hfs x (List.mem_cons_of_mem i hx))
      rw [ih m (runActions s (env c)) hm h1 h2 hok.2,
        walkFold_cons_some env fs s i rest c hc]
      simp [hc]

theorem trigger_walk (env : Nat → List TAction) (fs : Nat → Option Nat)
    (s : EventData) (h : SufInv s s.mConnections)
    (hfs : ∀ i ∈ s.mConnections, (s.store i).func = fs i)
    (hok : WalkOk env fs s.mConnections) :
    TEvent.trigger env s =
      (walkFold env fs s s.mConnections,
       s.mConnections.filter (fun i => (fs i).isSome)) :=
  triggerLoop_walk env fs s.mConnections s.mConnections.length s le_rfl h hfs hok

theorem walkFold_append (env : Nat → List TAction) (fs : Nat → Option Nat) :
    ∀ (L1 L2 : List Nat) (s : EventData),
    walkFold env fs s (L1 ++ L2) = walkFold env fs (walkFold env fs s L1) L2 := by
  intro L1
  induction L1 with
  | nil => intro L2 s; rfl
  | cons i rest ih =>
    intro L2 s
    rw [List.cons_append]
    cases hc : fs i with
    | none =>
      rw [walkFold_cons_none env fs s i (rest ++ L2) hc,
        walkFold_cons_none env fs s i rest hc]
      exact ih L2 s
    | some c =>
      rw [walkFold_cons_some env fs s i (rest ++ L2) c hc,
        walkFold_cons_some env fs s i rest c hc]
      exact ih L2 (runActions s (env c))

theorem walkFold_id (env : Nat → List TAction) (fs : Nat → Option Nat) :
    ∀ (L : List Nat) (s : EventData), (∀ x ∈ L, ∀ c, fs x = some c → env c = []) →
    walkFold env fs s L = s := by
  intro L
  induction L with
  | nil => intro s _; rfl
  | cons i rest ih =>
    intro s h
    cases hc : fs i with
    | none =>
      rw [walkFold_cons_none env fs s i rest hc]
      exact ih s fun x hx => h x (List.mem_cons_of_mem i hx)
    | some c =>
      rw [walkFold_cons_some env fs s i rest c hc,
        h i (List.mem_cons_self i rest) c hc]
      exact ih s fun x hx => h x (List.mem_cons_of_mem i hx)

theorem walkFold_pure (fs : Nat → Option Nat) (L : List Nat) (s : EventData) :
    walkFold pureEnv fs s L = s :=
  walkFold_id pureEnv fs L s fun _ _ _ _ => rfl

theorem WalkOk_pure (fs : Nat → Option Nat) :
    ∀ L : List Nat, WalkOk pureEnv fs L := by
  intro L
  induction L with
  | nil => trivial
  | cons i rest ih => exact ⟨fun c _ a ha => absurd ha (List.not_mem_nil a), ih⟩

theorem triggerLoop_pure_state :
    ∀ (fuel : Nat) (s : EventData) (cur : Option Nat),
    (TEvent.triggerLoop pureEnv fuel s cur).1 = s := by
  intro fuel
  induction fuel with
  | zero => intro s cur; cases cur <;> rfl
  | succ m ih =>
    intro s cur
    cases cur with
    | none => rfl
    | some i =>
      show (TEvent.triggerLoop pureEnv (m+1) s (some i)).1 = s
      rw [TEvent.triggerLoop]
      cases hc : (s.store i).func with
      | none => exact ih s (nextPtr s i)
      | some c => exact ih s (nextPtr s i)

theorem trigger_pure_state (s : EventData) :
    (TEvent.trigger pureEnv s).1 = s :=
  triggerLoop_pure_state s.mConnections.length s s.mConnections.head?

/-! ### Connecting a list of callbacks on a fresh registry -/

theorem connectFrom_spec :
    ∀ (cs : List Nat) (s : EventData), s.mFreeConnections = [] →
    (connectFrom s cs).mConnections =
      (List.range' s.fresh cs.length).reverse ++ s.mConnections ∧
    (connectFrom s cs).mFreeConnections = [] ∧
    (connectFrom s cs).fresh = s.fresh + cs.length ∧
    ∀ k, (connectFrom s cs).store k =
      if s.fresh ≤ k ∧ k < s.fresh + cs.length
      then ⟨true, 1, some (cs.getD (k - s.fresh) 0)⟩
      else s.store k := by
  intro cs
  induction cs with
  | nil =>
    intro s h
    refine ⟨by simp [connectFrom], h, by simp [connectFrom], ?_⟩
    intro k
    rw [if_neg (by rw [List.length_nil]; omega)]
    rfl
  | cons c cs ih =>
    intro s h
    obtain ⟨_, hmc, hmf, hfr, hsf, hst⟩ := connect_fresh s c h
    obtain ⟨ih1, ih2, ih3, ih4⟩ := ih (TEvent.connect s c).1 hmf
    have hstep : connectFrom s (c :: cs) = connectFrom (TEvent.connect s c).1 cs := rfl
    rw [hstep]
    refine ⟨?_, ih2, ?_, ?_⟩
    · rw [ih1, hmc, hfr, List.length_cons, List.range'_succ, List.reverse_cons,
        List.append_assoc, List.singleton_append]
    · rw [ih3, hfr, List.length_cons]
      omega
    · intro k
      rw [ih4 k, hfr]
      by_cases h1 : s.fresh + 1 ≤ k ∧ k < s.fresh + 1 + cs.length
      · rw [if_pos h1, if_pos (by rw [List.length_cons]; omega)]
        have he : k - s.fresh = (k - (s.fresh + 1)) + 1 := by omega
        rw [he, List.getD_cons_succ]
      · rw [if_neg h1]
        by_cases h2 : k = s.fresh
        · subst h2
          rw [hsf, if_pos (by rw [List.length_cons]; omega), Nat.sub_self,
            List.getD_cons_zero]
        · rw [hst k h2, if_neg (by rw [List.length_cons]; omega)]

theorem emptyEventData_fresh : emptyEventData.fresh = 0 := rfl

theorem emptyEventData_mConnections : emptyEventData.mConnections = [] := rfl

theorem emptyEventData_store (k : Nat) :
    emptyEventData.store k = ConnData.unalloc := rfl

theorem connectList_spec (cs : List Nat) :
    (connectList cs).mConnections = (List.range cs.length).reverse ∧
    (connectList cs).mFreeConnections = [] ∧
    (connectList cs).fresh = cs.length ∧
    ∀ k, (connectList cs).store k =
      if k < cs.length then ⟨true, 1, some (cs.getD k 0)⟩ else ConnData.unalloc := by
  obtain ⟨h1, h2, h3, h4⟩ := connectFrom_spec cs emptyEventData rfl
  simp only [emptyEventData_fresh, emptyEventData_mConnections, emptyEventData_store,
    Nat.zero_add, Nat.add_zero, Nat.zero_le, true_and, Nat.sub_zero,
    List.append_nil] at h1 h3 h4
  have hcl : connectList cs = connectFrom emptyEventData cs := rfl
  rw [hcl, ← List.range_eq_range'] at *
  exact ⟨h1, h2, h3, h4⟩

theorem getD_eq_getElemQ (cs : List Nat) (k : Nat) (h : k < cs.length) :
    some (cs.getD k 0) = cs[k]? := by
  rw [List.getElem?_eq_getElem h, List.getD_eq_getElem cs 0 h]

/-! ### Detaching records while extra handles keep them allocated -/

theorem incWrap_one : incWrap 1 = 2 := by decide

theorem detachVia_spec (s : EventData) (i : Nat) (c : Nat)
    (h : s.store i = ⟨true, 1, some c⟩) :
    (detachVia s i).mConnections = s.mConnections ∧
    (detachVia s i).mFreeConnections = s.mFreeConnections ∧
    (detachVia s i).fresh = s.fresh ∧
    (detachVia s i).store i = ⟨false, 1, none⟩ ∧
    ∀ j, j ≠ i → (detachVia s i).store j = s.store j := by
  unfold detachVia
  have h1 : ((incLinks s i).store i).handleLinks = 2 := by
    simp [incLinks, h, incWrap_one]
  obtain ⟨d1, d2, d3, d4, d5⟩ := disconnect_many (incLinks s i) i 2 h1 (by omega)
    (by unfold UINT32LIM; omega)
  refine ⟨by rw [d1]; rfl, by rw [d2]; rfl, by rw [d3]; rfl, by rw [d4], ?_⟩
  intro j hj
  rw [d5 j hj]
  exact setStore_store_ne _ _ _ hj

theorem markD_spec (D : Nat → Bool) :
    ∀ (L : List Nat) (s : EventData), L.Nodup →
    (∀ i ∈ L, ∃ c, s.store i = ⟨true, 1, some c⟩) →
    (markD s D L).mConnections = s.mConnections ∧
    (markD s D L).mFreeConnections = s.mFreeConnections ∧
    (markD s D L).fresh = s.fresh ∧
    (∀ k, k ∉ L → (markD s D L).store k = s.store k) ∧
    (∀ i ∈ L, (markD s D L).store i =
      if D i then ⟨false, 1, none⟩ else s.store i) := by
  intro L
  induction L with
  | nil =>
    intro s _ _
    exact ⟨rfl, rfl, rfl, fun k _ => rfl, fun i hi => absurd hi (List.not_mem_nil i)⟩
  | cons i L ih =>
    intro s hnd hsh
    have hiL : i ∉ L := (List.nodup_cons.mp hnd).1
    have hstep : markD s D (i :: L) = markD (if D i then detachVia s i else s) D L := by
      unfold markD
      rw [List.foldl_cons]
    rw [hstep]
    by_cases hD : D i
    · rw [if_pos hD] at *
      obtain ⟨c, hc⟩ := hsh i (List.mem_cons_self i L)
      obtain ⟨e1, e2, e3, e4, e5⟩ := detachVia_spec s i c hc
      obtain ⟨f1, f2, f3, f4, f5⟩ := ih (detachVia s i) (List.nodup_cons.mp hnd).2
        (by
          intro j hj
          obtain ⟨cj, hcj⟩ := hsh j (List.mem_cons_of_mem i hj)
          exact ⟨cj, by rw [e5 j (fun e => hiL (e ▸ hj)), hcj]⟩)
      refine ⟨by rw [f1, e1], by rw [f2, e2], by rw [f3, e3], ?_, ?_⟩
      · intro k hk
        have hk1 : k ∉ L := fun hm => hk (List.mem_cons_of_mem i hm)
        have hk2 : k ≠ i := fun e => hk (e ▸ List.mem_cons_self i L)
        rw [f4 k hk1, e5 k hk2]
      · intro j hj
        rcases List.mem_cons.mp hj with rfl | hj2
        · rw [f4 j hiL, e4, if_pos hD]
        · rw [f5 j hj2, e5 j (fun e => hiL (e ▸ hj2))]
    · rw [if_neg hD] at *
      obtain ⟨f1, f2, f3, f4, f5⟩ := ih s (List.nodup_cons.mp hnd).2
        (fun j hj => hsh j (List.mem_cons_of_mem i hj))
      refine ⟨f1, f2, f3, ?_, ?_⟩
      · intro k hk
        exact f4 k (fun hm => hk (List.mem_cons_of_mem i hm))
      · intro j hj
        rcases List.mem_cons.mp hj with rfl | hj2
        · rw [f4 j hiL, if_neg hD]
        · exact f5 j hj2

theorem deactivate_store_self (s : EventData) (i : Nat) :
    (deactivate s i).store i = ⟨false, (s.store i).handleLinks, none⟩ := by
  simp [deactivate]

theorem deactivate_store_ne (s : EventData) (i : Nat) {j : Nat} (h : j ≠ i) :
    (deactivate s i).store j = s.store j :=
  setStore_store_ne _ _ _ h

theorem free_mConnections (s : EventData) (i : Nat) :
    (EventInternalData.free s i).mConnections = s.mConnections.erase i := rfl

theorem free_mFreeConnections (s : EventData) (i : Nat) :
    (EventInternalData.free s i).mFreeConnections = i :: s.mFreeConnections := rfl

theorem free_store (s : EventData) (i : Nat) (j : Nat) :
    (EventInternalData.free s i).store j = s.store j := rfl

theorem free_fresh (s : EventData) (i : Nat) :
    (EventInternalData.free s i).fresh = s.fresh := rfl

theorem clearLoop_cons (s : EventData) (i : Nat) (rest : List Nat) :
    EventInternalData.clearLoop s (i :: rest) =
      EventInternalData.clearLoop
        (if ((deactivate s i).store i).handleLinks = 0
         then EventInternalData.free (deactivate s i) i
         else deactivate s i) rest := rfl

theorem clearLoop_zero_links :
    ∀ (L : List Nat) (s : EventData), s.mConnections = L → L.Nodup →
    (∀ i ∈ L, (s.store i).handleLinks = 0) →
    (EventInternalData.clearLoop s L).mConnections = [] := by
  intro L
  induction L with
  | nil => exact fun s h _ _ => h
  | cons i rest ih =>
    intro s hmc hnd hlk
    rw [clearLoop_cons, deactivate_store_self]
    rw [if_pos (hlk i (List.mem_cons_self i rest))]
    apply ih
    · rw [free_mConnections, deactivate]
      show s.mConnections.erase i = rest
      rw [hmc, List.erase_cons_head]
    · exact (List.nodup_cons.mp hnd).2
    · intro j hj
      have hne : j ≠ i := fun e => (List.nodup_cons.mp hnd).1 (e ▸ hj)
      rw [free_store, deactivate_store_ne s i hne]
      exact hlk j (List.mem_cons_of_mem i hj)

/-! ### Claim theorems -/

/-- C1: on a registry of `N` independently connected subscriptions
(records `0, …, N-1` created in connection order, record `k` storing the
`k`-th callback `cs[k]`, conjunct 4), with any subset `D` of them
subsequently deactivated (their stored callback emptied), a single trigger
invokes each remaining stored callback exactly once, in
most-recently-connected-first (head-insertion) order `N-1, …, 0`, skipping
exactly the records whose callback is empty (conjunct 1, the trace being a
duplicate-free sequence of record ids); a trigger of plain callbacks does
not change the registry state (conjunct 2), and the active list is the
head-insertion-ordered id list (conjunct 3). -/
theorem C1_single_delivery_order (cs : List Nat) (D : Nat → Bool) :
    (TEvent.trigger pureEnv (markD (connectList cs) D (List.range cs.length))).2 =
      ((List.range cs.length).reverse).filter (fun k => !(D k)) ∧
    (TEvent.trigger pureEnv (markD (connectList cs) D (List.range cs.length))).1 =
      markD (connectList cs) D (List.range cs.length) ∧
    (markD (connectList cs) D (List.range cs.length)).mConnections =
      (List.range cs.length).reverse ∧
    (∀ k, k < cs.length →
      ((markD (connectList cs) D (List.range cs.length)).store k).func =
        if D k then none else cs[k]?) := by
  obtain ⟨c1, c2, c3, c4⟩ := connectList_spec cs
  have hsh : ∀ i ∈ List.range cs.length, ∃ c,
      (connectList cs).store i = ⟨true, 1, some c⟩ := by
    intro i hi
    exact ⟨cs.getD i 0, by rw [c4 i, if_pos (List.mem_range.mp hi)]⟩
  obtain ⟨m1, m2, m3, m4, m5⟩ := markD_spec D (List.range cs.length)
    (connectList cs) (List.nodup_range cs.length) hsh
  set sD := markD (connectList cs) D (List.range cs.length) with hsD
  have hmc : sD.mConnections = (List.range cs.length).reverse := by rw [m1, c1]
  have hstk : ∀ k, k < cs.length → sD.store k =
      if D k then ⟨false, 1, none⟩ else ⟨true, 1, some (cs.getD k 0)⟩ := by
    intro k hk
    rw [m5 k (List.mem_range.mpr hk), c4 k, if_pos hk]
  have hinv : SufInv sD sD.mConnections := by
    apply SufInv_of_whole
    · rw [hmc]
      exact List.nodup_reverse.mpr (List.nodup_range _)
    · intro i _
      rw [m2, c2]
      exact List.not_mem_nil i
    · intro i hi
      rw [hmc] at hi
      rw [m3, c3]
      exact List.mem_range.mp (List.mem_reverse.mp hi)
  have hwalk := trigger_walk pureEnv (fun k => (sD.store k).func) sD hinv
    (fun i _ => rfl) (WalkOk_pure _ _)
  refine ⟨?_, trigger_pure_state sD, hmc, ?_⟩
  · rw [hwalk]
    show sD.mConnections.filter _ = _
    rw [hmc]
    apply List.filter_congr
    intro k hk
    have hklt : k < cs.length := List.mem_range.mp (List.mem_reverse.mp hk)
    show ((sD.store k).func).isSome = !D k
    rw [hstk k hklt]
    by_cases hD : D k <;> simp [hD]
  · intro k hk
    rw [hstk k hk]
    by_cases hD : D k
    · rw [if_pos hD, if_pos hD]
    · rw [if_neg hD, if_neg hD]
      exact getD_eq_getElemQ cs k hk

/-- C1 witness: three subscriptions with callbacks `10, 20, 30`, record 1
deactivated: the trigger trace is `[2, 0]` — most-recently-connected
first, record 1 skipped — and record 0 still stores callback `10`. -/
theorem C1_single_delivery_order_witness :
    0 < ([10, 20, 30] : List Nat).length ∧
    (TEvent.trigger pureEnv (markD (connectList [10, 20, 30]) (fun k => k == 1)
      (List.range ([10, 20, 30] : List Nat).length))).2 = [2, 0] ∧
    ((markD (connectList [10, 20, 30]) (fun k => k == 1)
      (List.range ([10, 20, 30] : List Nat).length)).store 0).func = some 10 := by
  obtain ⟨h1, _, _, h4⟩ := C1_single_delivery_order [10, 20, 30] (fun k => k == 1)
  refine ⟨by decide, ?_, ?_⟩
  · exact h1.trans (by decide)
  · exact (h4 0 (by decide)).trans (by decide)

/-- C5 counterexample: on a registry with one subscription whose handle is
still alive (`handleRefCount = 1`), `clear()` deactivates the record but
must leave it linked in the active list, so `empty()` returns `false`
right after `clear()` — refuting "`isEmpty()` returns true … after
`clear()`" as an unconditional statement. -/
theorem C5_empty_after_clear_ctrex :
    TEvent.empty (EventInternalData.clear (connectList [5])) = false ∧
    (EventInternalData.clear (connectList [5])).mConnections = [0] := by
  constructor <;> rfl

/-- C5 amended: `empty()` is true iff the active list holds no records,
independent of the free list's contents; it is true on a fresh registry
and false while at least one subscription is connected.  After `clear()`
it is true provided no record is pinned by an outstanding handle (every
`handleRefCount` is zero) — records still referenced by live handles
survive `clear()` in the active list, as the counterexample shows. -/
theorem C5_empty_iff (s0 : EventData) (fl : List Nat) (cs : List Nat) :
    (TEvent.empty s0 = true ↔ s0.mConnections = []) ∧
    TEvent.empty { s0 with mFreeConnections := fl } = TEvent.empty s0 ∧
    TEvent.empty emptyEventData = true ∧
    (cs ≠ [] → TEvent.empty (connectList cs) = false) ∧
    (s0.mConnections.Nodup →
      (∀ i ∈ s0.mConnections, (s0.store i).handleLinks = 0) →
      TEvent.empty (EventInternalData.clear s0) = true) := by
  refine ⟨by simp [TEvent.empty], rfl, rfl, ?_, ?_⟩
  · intro hcs
    obtain ⟨c1, _, _, _⟩ := connectList_spec cs
    have hlen : 0 < cs.length := List.length_pos.mpr hcs
    have hne : (List.range cs.length).reverse ≠ [] := by
      intro h
      have h2 := congrArg List.length h
      rw [List.length_reverse, List.length_range, List.length_nil] at h2
      omega
    show (connectList cs).mConnections.isEmpty = false
    rw [c1]
    exact List.isEmpty_eq_false.mpr hne
  · intro hnd hlk
    have h := clearLoop_zero_links s0.mConnections s0 rfl hnd hlk
    show (EventInternalData.clear s0).mConnections.isEmpty = true
    rw [EventInternalData.clear, h]
    rfl

/-- C5 witness for the hypothesis-bearing conjuncts: a two-subscription
registry is non-empty, and clearing a registry whose single record has no
outstanding handle (the handle was dropped first) leaves it empty. -/
theorem C5_empty_iff_witness :
    ([1, 2] ≠ ([] : List Nat)) ∧
    TEvent.empty (connectList [1, 2]) = false ∧
    TEvent.empty (EventInternalData.clear
      (EventInternalData.freeHandle (connectList [9]) 0)) = true := by
  refine ⟨by decide, ?_, ?_⟩
  · exact (C5_empty_iff (connectList [1, 2]) [] [1, 2]).2.2.2.1 (by decide)
  · exact (C5_empty_iff (EventInternalData.freeHandle (connectList [9]) 0)
      [] []).2.2.2.2 (by decide) (by decide)

/-- C6: `HEvent::operator=` does not release the assigned-to handle's
previous reference: on a registry with records 0 and 1 (one handle each),
assigning the handle of record 1 onto the handle of record 0 leaves record
0's `handleRefCount` at 1 — it is never decremented, so record 0 can never
be reclaimed — while record 1's count is incremented to 2 and the handle
now references record 1 (the "copy increments the target" half of the
claim does hold). -/
theorem C6_assign_releases_nothing :
    ((HEvent.assign (connectList [10, 20]) ⟨some 0⟩ ⟨some 1⟩).1.store 0).handleLinks = 1 ∧
    ((HEvent.assign (connectList [10, 20]) ⟨some 0⟩ ⟨some 1⟩).1.store 1).handleLinks = 2 ∧
    (HEvent.assign (connectList [10, 20]) ⟨some 0⟩ ⟨some 1⟩).2.mConnection = some 1 ∧
    ((connectList [10, 20]).store 0).handleLinks = 1 ∧
    ((connectList [10, 20]).store 1).handleLinks = 1 := by
  refine ⟨?_, ?_, rfl, ?_, ?_⟩ <;> rfl

theorem trigger_connectLike (s' : EventData) (cs : List Nat)
    (hmc : s'.mConnections = (List.range cs.length).reverse)
    (hmf : s'.mFreeConnections = [])
    (hfr : s'.fresh = cs.length) :
    (TEvent.trigger pureEnv s').2 =
      ((List.range cs.length).reverse).filter
        (fun j => ((s'.store j).func).isSome) := by
  have hinv : SufInv s' s'.mConnections := SufInv_of_whole s'
    (by rw [hmc]; exact List.nodup_reverse.mpr (List.nodup_range _))
    (fun i _ => by rw [hmf]; exact List.not_mem_nil i)
    (fun i hi => by
      rw [hmc] at hi
      rw [hfr]
      exact List.mem_range.mp (List.mem_reverse.mp hi))
  have hwalk := trigger_walk pureEnv (fun k => (s'.store k).func) s' hinv
    (fun i _ => rfl) (WalkOk_pure _ _)
  rw [hwalk]
  show s'.mConnections.filter _ = _
  rw [hmc]

/-- C2: destroying a handle without disconnecting (`~HEvent`, i.e.
`freeHandle`) on a still-active record only decrements the record's
`handleRefCount` — the lists, the activation flag and the stored callback
are untouched (conjunct 1); reclamation to the free list happens only
when the count reaches zero on an *already inactive* record (conjunct 2);
and after dropping the handle of subscription `k`, a trigger still
invokes every callback, including record `k`'s (conjunct 3). -/
theorem C2_handle_drop (s0 s1 : EventData) (i i1 n : Nat) (cs : List Nat)
    (k : Nat) :
    ((s0.store i).isActive = true → (s0.store i).handleLinks = n →
     0 < n → n < UINT32LIM →
      (EventInternalData.freeHandle s0 i).mConnections = s0.mConnections ∧
      (EventInternalData.freeHandle s0 i).mFreeConnections = s0.mFreeConnections ∧
      (EventInternalData.freeHandle s0 i).fresh = s0.fresh ∧
      (EventInternalData.freeHandle s0 i).store i =
        { s0.store i with handleLinks := n - 1 } ∧
      ∀ j, j ≠ i → (EventInternalData.freeHandle s0 i).store j = s0.store j) ∧
    ((s1.store i1).isActive = false → (s1.store i1).handleLinks = 1 →
      (EventInternalData.freeHandle s1 i1).mConnections = s1.mConnections.erase i1 ∧
      (EventInternalData.freeHandle s1 i1).mFreeConnections = i1 :: s1.mFreeConnections) ∧
    (k < cs.length →
      (TEvent.trigger pureEnv (HEvent.destroy (connectList cs) ⟨some k⟩)).2 =
        (List.range cs.length).reverse) := by
  refine ⟨fun ha hn h1 h2 => freeHandle_active s0 i n ha hn h1 h2, ?_, ?_⟩
  · intro ha hn
    obtain ⟨e1, e2, _, _⟩ := freeHandle_reclaim s1 i1 ha hn
    exact ⟨e1, e2⟩
  · intro hk
    obtain ⟨c1, c2, c3, c4⟩ := connectList_spec cs
    have hrec : (connectList cs).store k = ⟨true, 1, some (cs.getD k 0)⟩ := by
      rw [c4 k, if_pos hk]
    have hdest : HEvent.destroy (connectList cs) ⟨some k⟩ =
        EventInternalData.freeHandle (connectList cs) k := rfl
    obtain ⟨f1, f2, f3, f4, f5⟩ := freeHandle_active (connectList cs) k 1
      (by rw [hrec]) (by rw [hrec]) (by omega) (by unfold UINT32LIM; omega)
    rw [hdest, trigger_connectLike _ cs (by rw [f1, c1]) (by rw [f2, c2])
      (by rw [f3, c3])]
    apply List.filter_eq_self.mpr
    intro j hj
    have hjlt : j < cs.length := List.mem_range.mp (List.mem_reverse.mp hj)
    by_cases hji : j = k
    · subst hji
      rw [f4, hrec]
      rfl
    · rw [f5 j hji, c4 j, if_pos hjlt]
      rfl

/-- C2 witness: on concrete registries, the hypotheses of all three parts
hold and the conclusions evaluate — in particular dropping the handle of
subscription 1 of a two-subscription registry leaves the trigger trace
`[1, 0]`. -/
theorem C2_handle_drop_witness :
    ((connectList [5, 6]).store 0).isActive = true ∧
    ((connectList [5, 6]).store 0).handleLinks = 1 ∧
    ((detachVia (connectList [5]) 0).store 0).isActive = false ∧
    ((detachVia (connectList [5]) 0).store 0).handleLinks = 1 ∧
    (TEvent.trigger pureEnv (HEvent.destroy (connectList [7, 8]) ⟨some 1⟩)).2 =
      (List.range 2).reverse := by
  refine ⟨by decide, by decide, by decide, by decide, ?_⟩
  exact (C2_handle_drop (connectList [5, 6]) (detachVia (connectList [5]) 0)
    0 0 1 [7, 8] 1).2.2 (by decide)

/-- C7: disconnecting through a handle (`EventInternalData::disconnect`)
deactivates the record — the stored callback is cleared — and decrements
`handleRefCount`; when the count reaches zero the record is unlinked from
the active list and relinked at the free-list head (conjunct 1); when it
stays positive the record remains linked but inactive (conjunct 2); a
record deactivated while a second handle keeps it allocated stays in the
active list and is skipped by the next trigger (conjunct 3). -/
theorem C7_disconnect_deactivates (s0 s1 : EventData) (i i1 n : Nat)
    (cs : List Nat) (k : Nat) :
    ((s0.store i).handleLinks = 1 →
      (EventInternalData.disconnect s0 i).mConnections = s0.mConnections.erase i ∧
      (EventInternalData.disconnect s0 i).mFreeConnections = i :: s0.mFreeConnections ∧
      (EventInternalData.disconnect s0 i).store i = ⟨false, 0, none⟩) ∧
    ((s1.store i1).handleLinks = n → 1 < n → n < UINT32LIM →
      (EventInternalData.disconnect s1 i1).mConnections = s1.mConnections ∧
      (EventInternalData.disconnect s1 i1).mFreeConnections = s1.mFreeConnections ∧
      (EventInternalData.disconnect s1 i1).store i1 = ⟨false, n - 1, none⟩) ∧
    (k < cs.length →
      (detachVia (connectList cs) k).mConnections = (List.range cs.length).reverse ∧
      (detachVia (connectList cs) k).store k = ⟨false, 1, none⟩ ∧
      (TEvent.trigger pureEnv (detachVia (connectList cs) k)).2 =
        ((List.range cs.length).reverse).filter (fun j => !(j == k))) := by
  refine ⟨?_, ?_, ?_⟩
  · intro h1
    obtain ⟨e1, e2, _, e4, _⟩ := disconnect_one s0 i h1
    exact ⟨e1, e2, e4⟩
  · intro hn h1 h2
    obtain ⟨e1, e2, _, e4, _⟩ := disconnect_many s1 i1 n hn h1 h2
    exact ⟨e1, e2, e4⟩
  · intro hk
    obtain ⟨c1, c2, c3, c4⟩ := connectList_spec cs
    have hrec : (connectList cs).store k = ⟨true, 1, some (cs.getD k 0)⟩ := by
      rw [c4 k, if_pos hk]
    obtain ⟨d1, d2, d3, d4, d5⟩ := detachVia_spec (connectList cs) k
      (cs.getD k 0) hrec
    refine ⟨by rw [d1, c1], d4, ?_⟩
    rw [trigger_connectLike _ cs (by rw [d1, c1]) (by rw [d2, c2])
      (by rw [d3, c3])]
    apply List.filter_congr
    intro j hj
    have hjlt : j < cs.length := List.mem_range.mp (List.mem_reverse.mp hj)
    by_cases hji : j = k
    · subst hji
      rw [d4]
      simp
    · rw [d5 j hji, c4 j, if_pos hjlt]
      simp [hji]

/-- C7 witness: the record of a one-subscription registry is reclaimed on
disconnect; with an extra handle (`handleRefCount = 2`) it stays linked
inactive; and in a two-subscription registry, detaching record 0 yields
the trigger trace `[1]`. -/
theorem C7_disconnect_witness :
    ((connectList [3]).store 0).handleLinks = 1 ∧
    ((incLinks (connectList [3]) 0).store 0).handleLinks = 2 ∧
    (TEvent.trigger pureEnv (detachVia (connectList [4, 5]) 0)).2 =
      ((List.range 2).reverse).filter (fun j => !(j == 0)) := by
  refine ⟨by decide, by decide, ?_⟩
  exact ((C7_disconnect_deactivates (connectList [3])
    (incLinks (connectList [3]) 0) 0 0 2 [4, 5] 0).2.2 (by decide)).2.2

/-! ### Reentrant callbacks: disconnecting and connecting mid-trigger -/

theorem range_getD (N k : Nat) (h : k < N) : (List.range N).getD k 0 = k := by
  rw [List.getD_eq_getElem _ _ (by simpa using h), List.getElem_range]

theorem rangeRev_split (k N : Nat) (h : k + 1 ≤ N) :
    (List.range N).reverse =
      (List.range' (k+1) (N-k-1)).reverse ++ (k :: (List.range k).reverse) := by
  have h1 : List.range' 0 (k+1) ++ List.range' (k+1) (N-k-1) = List.range' 0 N := by
    have h2 := List.range'_append 0 (k+1) (N-k-1) 1
    simp only [Nat.zero_add, Nat.one_mul] at h2
    rw [h2]
    congr 1
    omega
  rw [List.range_eq_range', ← h1, List.reverse_append]
  congr 1
  rw [← List.range_eq_range', List.range_succ, List.reverse_append]
  rfl

theorem WalkOk_selfDisc (D : Nat → Bool) (fs : Nat → Option Nat) :
    ∀ L : List Nat, L.Nodup → (∀ x ∈ L, ∀ c, fs x = some c → c = x) →
    WalkOk (selfDiscEnv D) fs L := by
  intro L
  induction L with
  | nil => intro _ _; trivial
  | cons i rest ih =>
    intro hnd hc
    refine ⟨?_, ih (List.nodup_cons.mp hnd).2
      (fun x hx => hc x (List.mem_cons_of_mem i hx))⟩
    intro c hfc a ha
    have hci : c = i := hc i (List.mem_cons_self i rest) c hfc
    subst hci
    unfold selfDiscEnv at ha
    by_cases hD : D c
    · rw [if_pos hD] at ha
      have haeq : a = TAction.disconnect c := List.mem_singleton.mp ha
      subst haeq
      exact (List.nodup_cons.mp hnd).1
    · rw [if_neg hD] at ha
      exact absurd ha (List.not_mem_nil a)

theorem WalkOk_oneDisc (k j : Nat) (fs : Nat → Option Nat) (hkj : k < j) :
    ∀ L : List Nat, L.Pairwise (fun a b => b < a) →
    (∀ x ∈ L, ∀ c, fs x = some c → c = x) →
    WalkOk (oneDiscEnv k j) fs L := by
  intro L
  induction L with
  | nil => intro _ _; trivial
  | cons i rest ih =>
    intro hp hc
    obtain ⟨hlt, hp2⟩ := List.pairwise_cons.mp hp
    refine ⟨?_, ih hp2 (fun x hx => hc x (List.mem_cons_of_mem i hx))⟩
    intro c hfc a ha
    have hci : c = i := hc i (List.mem_cons_self i rest) c hfc
    subst hci
    unfold oneDiscEnv at ha
    by_cases hik : c = k
    · rw [if_pos hik] at ha
      have haeq : a = TAction.disconnect j := List.mem_singleton.mp ha
      subst haeq
      show j ∉ rest
      intro hjr
      have hji : j < c := hlt j hjr
      omega
    · rw [if_neg hik] at ha
      exact absurd ha (List.not_mem_nil a)

theorem WalkOk_oneConn (k p : Nat) (fs : Nat → Option Nat) :
    ∀ L : List Nat, WalkOk (oneConnEnv k p) fs L := by
  intro L
  induction L with
  | nil => trivial
  | cons i rest ih =>
    refine ⟨?_, ih⟩
    intro c _ a ha
    unfold oneConnEnv at ha
    by_cases hik : c = k
    · rw [if_pos hik] at ha
      have haeq : a = TAction.connect p := List.mem_singleton.mp ha
      subst haeq
      trivial
    · rw [if_neg hik] at ha
      exact absurd ha (List.not_mem_nil a)

theorem walkFold_skip (env : Nat → List TAction) (fs : Nat → Option Nat)
    (k : Nat) (henv : ∀ c, c ≠ k → env c = []) :
    ∀ (L : List Nat) (s : EventData), (∀ x ∈ L, ∀ c, fs x = some c → c = x) →
    k ∉ L → walkFold env fs s L = s := by
  intro L s hc hk
  apply walkFold_id
  intro x hx c hfc
  have hcx : c = x := hc x hx c hfc
  subst hcx
  exact henv c (fun e => hk (e ▸ hx))

theorem walkFold_selfDisc (D : Nat → Bool) (fs : Nat → Option Nat) :
    ∀ (L front : List Nat) (s : EventData),
    s.mConnections = front ++ L → (∀ x ∈ L, x ∉ front) → L.Nodup →
    (∀ x ∈ L, fs x = some x) →
    (∀ x ∈ L, s.store x = ⟨true, 1, some x⟩) →
    (∀ x ∈ L, x ∉ s.mFreeConnections) →
    (walkFold (selfDiscEnv D) fs s L).mConnections =
      front ++ L.filter (fun x => !(D x)) ∧
    (walkFold (selfDiscEnv D) fs s L).mFreeConnections =
      (L.filter D).reverse ++ s.mFreeConnections ∧
    (walkFold (selfDiscEnv D) fs s L).fresh = s.fresh ∧
    (∀ x ∈ L, (walkFold (selfDiscEnv D) fs s L).store x =
      if D x then ⟨false, 0, none⟩ else s.store x) ∧
    (∀ y, y ∉ L → (walkFold (selfDiscEnv D) fs s L).store y = s.store y) := by
  intro L
  induction L with
  | nil =>
    intro front s hmc _ _ _ _ _
    exact ⟨by simpa using hmc, rfl, rfl,
      fun x hx => absurd hx (List.not_mem_nil x), fun y _ => rfl⟩
  | cons x rest ih =>
    intro front s hmc hnf hnd hfs hsh hfree
    have hfx : fs x = some x := hfs x (List.mem_cons_self x rest)
    have hxf : x ∉ front := hnf x (List.mem_cons_self x rest)
    have hxr : x ∉ rest := (List.nodup_cons.mp hnd).1
    rw [walkFold_cons_some (selfDiscEnv D) fs s x rest x hfx]
    by_cases hD : D x
    · have hrun : runActions s (selfDiscEnv D x) =
          EventInternalData.disconnect s x := by
        rw [show selfDiscEnv D x = [TAction.disconnect x] from by
          simp [selfDiscEnv, hD]]
        rfl
      rw [hrun]
      obtain ⟨d1, d2, d3, d4, d5⟩ := disconnect_one s x
        (by rw [hsh x (List.mem_cons_self x rest)])
      obtain ⟨f1, f2, f3, f4, f5⟩ := ih front (EventInternalData.disconnect s x)
        (by rw [d1, hmc, List.erase_append_right _ hxf, List.erase_cons_head])
        (fun y hy => hnf y (List.mem_cons_of_mem x hy))
        (List.nodup_cons.mp hnd).2
        (fun y hy => hfs y (List.mem_cons_of_mem x hy))
        (fun y hy => by
          rw [d5 y (fun e => hxr (e ▸ hy))]
          exact hsh y (List.mem_cons_of_mem x hy))
        (fun y hy => by
          rw [d2]
          intro hm
          rcases List.mem_cons.mp hm with e | hm2
          · exact hxr (e ▸ hy)
          · exact hfree y (List.mem_cons_of_mem x hy) hm2)
      have hfc1 : List.filter (fun z => !(D z)) (x :: rest) =
          List.filter (fun z => !(D z)) rest := by
        rw [List.filter_cons]
        simp [hD]
      have hfc2 : List.filter D (x :: rest) = x :: List.filter D rest := by
        rw [List.filter_cons]
        simp [hD]
      refine ⟨by rw [f1, hfc1], ?_, by rw [f3, d3], ?_, ?_⟩
      · rw [f2, d2, hfc2, List.reverse_cons, List.append_assoc,
          List.singleton_append]
      · intro y hy
        rcases List.mem_cons.mp hy with rfl | hy2
        · rw [f5 y hxr, d4, if_pos hD]
        · rw [f4 y hy2]
          by_cases hDy : D y
          · rw [if_pos hDy, if_pos hDy]
          · rw [if_neg hDy, if_neg hDy]
            exact d5 y (fun e => hxr (e ▸ hy2))
      · intro y hy
        have hy1 : y ∉ rest := fun hm => hy (List.mem_cons_of_mem x hm)
        have hy2 : y ≠ x := fun e => hy (e ▸ List.mem_cons_self x rest)
        rw [f5 y hy1, d5 y hy2]
    · have hrun : runActions s (selfDiscEnv D x) = s := by
        rw [show selfDiscEnv D x = [] from by simp [selfDiscEnv, hD]]
        rfl
      rw [hrun]
      obtain ⟨f1, f2, f3, f4, f5⟩ := ih (front ++ [x]) s
        (by rw [hmc, List.append_assoc, List.singleton_append])
        (fun y hy hm => by
          rcases List.mem_append.mp hm with h1 | h2
          · exact hnf y (List.mem_cons_of_mem x hy) h1
          · exact hxr ((List.mem_singleton.mp h2) ▸ hy))
        (List.nodup_cons.mp hnd).2
        (fun y hy => hfs y (List.mem_cons_of_mem x hy))
        (fun y hy => hsh y (List.mem_cons_of_mem x hy))
        (fun y hy => hfree y (List.mem_cons_of_mem x hy))
      have hfc1 : List.filter (fun z => !(D z)) (x :: rest) =
          x :: List.filter (fun z => !(D z)) rest := by
        rw [List.filter_cons]
        simp [hD]
      have hfc2 : List.filter D (x :: rest) = List.filter D rest := by
        rw [List.filter_cons]
        simp [hD]
      refine ⟨?_, by rw [f2, hfc2], f3, ?_, ?_⟩
      · rw [f1, hfc1, List.append_assoc, List.singleton_append]
      · intro y hy
        rcases List.mem_cons.mp hy with rfl | hy2
        · rw [f5 y hxr, if_neg hD]
        · exact f4 y hy2
      · intro y hy
        exact f5 y (fun hm => hy (List.mem_cons_of_mem x hm))

theorem connectRange_store (N : Nat) :
    ∀ x, x < N → (connectList (List.range N)).store x = ⟨true, 1, some x⟩ := by
  intro x hx
  obtain ⟨_, _, _, c4⟩ := connectList_spec (List.range N)
  rw [c4 x, if_pos (by rw [List.length_range]; exact hx)]
  rw [range_getD N x hx]

theorem connectRange_lists (N : Nat) :
    (connectList (List.range N)).mConnections = (List.range N).reverse ∧
    (connectList (List.range N)).mFreeConnections = [] ∧
    (connectList (List.range N)).fresh = N := by
  obtain ⟨c1, c2, c3, _⟩ := connectList_spec (List.range N)
  rw [List.length_range] at c1 c3
  exact ⟨c1, c2, c3⟩

theorem connectRange_SufInv (N : Nat) :
    SufInv (connectList (List.range N)) (connectList (List.range N)).mConnections := by
  obtain ⟨c1, c2, c3⟩ := connectRange_lists N
  apply SufInv_of_whole
  · rw [c1]
    exact List.nodup_reverse.mpr (List.nodup_range _)
  · intro i _
    rw [c2]
    exact List.not_mem_nil i
  · intro i hi
    rw [c1] at hi
    rw [c3]
    exact List.mem_range.mp (List.mem_reverse.mp hi)

theorem connectRange_funcs (N : Nat) :
    ∀ x ∈ (List.range N).reverse,
      ((connectList (List.range N)).store x).func = some x := by
  intro x hx
  rw [connectRange_store N x (List.mem_range.mp (List.mem_reverse.mp hx))]

/-- C3: with `N` subscriptions (record ids `0, …, N-1`, the walk visiting
`N-1, …, 0`), (a) any subset `D` of the callbacks may disconnect *their
own* handle mid-trigger: the walk is not corrupted — every callback,
including the self-disconnecting ones, is invoked exactly once in walk
order (conjunct 1, the trace being the duplicate-free id list), the
disconnected records leave the active list (conjunct 2), and a second
trigger invokes exactly the surviving callbacks once each, so nothing is
ever invoked twice (conjunct 3); (b) the callback of record `k` may
disconnect the *already-visited* record `j` (`k < j < N`, so `j` was
walked before `k`): again every callback fires exactly once (conjunct 4),
`j` alone is unlinked (conjunct 5), and the next trigger invokes exactly
the others (conjunct 6). -/
theorem C3_mid_trigger_disconnect (N : Nat) (D : Nat → Bool) (k j : Nat)
    (hkj : k < j) (hjN : j < N) :
    (TEvent.trigger (selfDiscEnv D) (connectList (List.range N))).2 =
      (List.range N).reverse ∧
    (TEvent.trigger (selfDiscEnv D) (connectList (List.range N))).1.mConnections =
      ((List.range N).reverse).filter (fun x => !(D x)) ∧
    (TEvent.trigger pureEnv
        (TEvent.trigger (selfDiscEnv D) (connectList (List.range N))).1).2 =
      ((List.range N).reverse).filter (fun x => !(D x)) ∧
    (TEvent.trigger (oneDiscEnv k j) (connectList (List.range N))).2 =
      (List.range N).reverse ∧
    (TEvent.trigger (oneDiscEnv k j) (connectList (List.range N))).1.mConnections =
      ((List.range N).reverse).erase j ∧
    (TEvent.trigger pureEnv
        (TEvent.trigger (oneDiscEnv k j) (connectList (List.range N))).1).2 =
      ((List.range N).reverse).erase j := by
  obtain ⟨c1, c2, c3⟩ := connectRange_lists N
  have hnodL : ((List.range N).reverse).Nodup :=
    List.nodup_reverse.mpr (List.nodup_range _)
  have hcc : ∀ x ∈ (List.range N).reverse, ∀ c,
      ((connectList (List.range N)).store x).func = some c → c = x := by
    intro x hx c hc
    rw [connectRange_funcs N x hx] at hc
    exact (Option.some_inj.mp hc).symm
  have hfilt : ∀ s' : EventData,
      (∀ x ∈ s'.mConnections, ((s'.store x).func).isSome = true) →
      s'.mConnections.filter (fun i => ((s'.store i).func).isSome) =
        s'.mConnections := fun s' h => List.filter_eq_self.mpr h
  -- part (a): self-disconnection
  have hwalkA := trigger_walk (selfDiscEnv D)
    (fun x => ((connectList (List.range N)).store x).func)
    (connectList (List.range N)) (connectRange_SufInv N) (fun i _ => rfl)
    (by
      rw [c1]
      exact WalkOk_selfDisc D _ _ hnodL hcc)
  obtain ⟨fa1, fa2, fa3, fa4, fa5⟩ := walkFold_selfDisc D
    (fun x => ((connectList (List.range N)).store x).func)
    ((List.range N).reverse) [] (connectList (List.range N))
    (by rw [c1]; rfl)
    (fun x _ => List.not_mem_nil x)
    hnodL
    (fun x hx => connectRange_funcs N x hx)
    (fun x hx => connectRange_store N x (List.mem_range.mp (List.mem_reverse.mp hx)))
    (fun x _ => by rw [c2]; exact List.not_mem_nil x)
  have hstateA : (TEvent.trigger (selfDiscEnv D) (connectList (List.range N))).1 =
      walkFold (selfDiscEnv D)
        (fun x => ((connectList (List.range N)).store x).func)
        (connectList (List.range N)) ((List.range N).reverse) := by
    rw [hwalkA, c1]
  have htraceA : (TEvent.trigger (selfDiscEnv D) (connectList (List.range N))).2 =
      (List.range N).reverse := by
    rw [hwalkA]
    show (connectList (List.range N)).mConnections.filter _ = _
    rw [c1]
    apply List.filter_eq_self.mpr
    intro x hx
    show (((connectList (List.range N)).store x).func).isSome = true
    rw [connectRange_funcs N x hx]
    rfl
  have hmcA : (TEvent.trigger (selfDiscEnv D) (connectList (List.range N))).1.mConnections =
      ((List.range N).reverse).filter (fun x => !(D x)) := by
    rw [hstateA, fa1, List.nil_append]
  refine ⟨htraceA, hmcA, ?_, ?_⟩
  · -- second trigger after self-disconnections
    set s1 := (TEvent.trigger (selfDiscEnv D) (connectList (List.range N))).1 with hs1
    have hfree1 : s1.mFreeConnections =
        (((List.range N).reverse).filter D).reverse := by
      rw [hstateA, fa2, c2, List.append_nil]
    have hfr1 : s1.fresh = N := by
      rw [hstateA, fa3, c3]
    have hst1 : ∀ x ∈ s1.mConnections, s1.store x =
        (connectList (List.range N)).store x := by
      intro x hx
      rw [hmcA] at hx
      obtain ⟨hxL, hxD⟩ := List.mem_filter.mp hx
      rw [hstateA, fa4 x hxL, if_neg (by simpa using hxD)]
    have hinv1 : SufInv s1 s1.mConnections := by
      apply SufInv_of_whole
      · rw [hmcA]
        exact List.Nodup.filter _ hnodL
      · intro x hx
        rw [hfree1]
        intro hm
        rw [hmcA] at hx
        obtain ⟨_, hxD⟩ := List.mem_filter.mp hx
        obtain ⟨_, hD2⟩ := List.mem_filter.mp (List.mem_reverse.mp hm)
        simp at hxD
        rw [hxD] at hD2
        exact Bool.false_ne_true hD2
      · intro x hx
        rw [hfr1]
        rw [hmcA] at hx
        exact List.mem_range.mp
          (List.mem_reverse.mp (List.mem_filter.mp hx).1)
    have hwalk1 := trigger_walk pureEnv (fun x => (s1.store x).func) s1 hinv1
      (fun i _ => rfl) (WalkOk_pure _ _)
    rw [hwalk1]
    show s1.mConnections.filter _ = _
    rw [← hmcA]
    apply List.filter_eq_self.mpr
    intro x hx
    show ((s1.store x).func).isSome = true
    rw [hst1 x hx]
    rw [hmcA] at hx
    rw [connectRange_funcs N x (List.mem_filter.mp hx).1]
    rfl
  · -- part (b): disconnecting an already-visited record
    have hkN : k < N := lt_trans hkj hjN
    have hsplit := rangeRev_split k N (by omega)
    have hAmem : ∀ x ∈ (List.range' (k+1) (N-k-1)).reverse, k + 1 ≤ x ∧ x < N := by
      intro x hx
      have h2 := List.mem_range'_1.mp (List.mem_reverse.mp hx)
      omega
    have hBmem : ∀ x ∈ (List.range k).reverse, x < k := by
      intro x hx
      exact List.mem_range.mp (List.mem_reverse.mp hx)
    have hkA : k ∉ (List.range' (k+1) (N-k-1)).reverse := by
      intro hm
      have := hAmem k hm
      omega
    have hkB : k ∉ (List.range k).reverse := by
      intro hm
      have := hBmem k hm
      omega
    have henv : ∀ c, c ≠ k → oneDiscEnv k j c = [] := by
      intro c hc
      simp [oneDiscEnv, hc]
    have hccA : ∀ x ∈ (List.range' (k+1) (N-k-1)).reverse, ∀ c,
        ((connectList (List.range N)).store x).func = some c → c = x := by
      intro x hx
      exact hcc x (by rw [hsplit]; exact List.mem_append_left _ hx)
    have hccB : ∀ x ∈ (List.range k).reverse, ∀ c,
        ((connectList (List.range N)).store x).func = some c → c = x := by
      intro x hx
      refine hcc x ?_
      rw [hsplit]
      exact List.mem_append_right _ (List.mem_cons_of_mem k hx)
    have hwalkB := trigger_walk (oneDiscEnv k j)
      (fun x => ((connectList (List.range N)).store x).func)
      (connectList (List.range N)) (connectRange_SufInv N) (fun i _ => rfl)
      (by
        rw [c1]
        refine WalkOk_oneDisc k j _ hkj _ ?_ hcc
        rw [List.pairwise_reverse]
        exact List.pairwise_lt_range N)
    have htraceB : (TEvent.trigger (oneDiscEnv k j) (connectList (List.range N))).2 =
        (List.range N).reverse := by
      rw [hwalkB]
      show (connectList (List.range N)).mConnections.filter _ = _
      rw [c1]
      apply List.filter_eq_self.mpr
      intro x hx
      show (((connectList (List.range N)).store x).func).isSome = true
      rw [connectRange_funcs N x hx]
      rfl
    have hfk : ((connectList (List.range N)).store k).func = some k := by
      rw [connectRange_store N k hkN]
    have hrunk : runActions (connectList (List.range N)) (oneDiscEnv k j k) =
        EventInternalData.disconnect (connectList (List.range N)) j := by
      rw [show oneDiscEnv k j k = [TAction.disconnect j] from by
        simp [oneDiscEnv]]
      rfl
    obtain ⟨d1, d2, d3, d4, d5⟩ := disconnect_one (connectList (List.range N)) j
      (by rw [connectRange_store N j hjN])
    have hstateB : (TEvent.trigger (oneDiscEnv k j) (connectList (List.range N))).1 =
        EventInternalData.disconnect (connectList (List.range N)) j := by
      rw [hwalkB]
      show walkFold _ _ _ (connectList (List.range N)).mConnections = _
      rw [c1, hsplit, walkFold_append,
        walkFold_skip (oneDiscEnv k j) _ k henv _ _ hccA hkA,
        walkFold_cons_some _ _ _ k _ k hfk, hrunk,
        walkFold_skip (oneDiscEnv k j) _ k henv _ _ hccB hkB]
    have hmcB : (TEvent.trigger (oneDiscEnv k j) (connectList (List.range N))).1.mConnections =
        ((List.range N).reverse).erase j := by
      rw [hstateB, d1, c1]
    refine ⟨htraceB, hmcB, ?_⟩
    set s2 := (TEvent.trigger (oneDiscEnv k j) (connectList (List.range N))).1 with hs2
    have hfree2 : s2.mFreeConnections = [j] := by
      rw [hstateB, d2, c2]
    have hfr2 : s2.fresh = N := by
      rw [hstateB, d3, c3]
    have hmemE : ∀ x ∈ ((List.range N).reverse).erase j, x ≠ j ∧ x < N := by
      intro x hx
      obtain ⟨hne, hxL⟩ := (List.Nodup.mem_erase_iff hnodL).mp hx
      exact ⟨hne, List.mem_range.mp (List.mem_reverse.mp hxL)⟩
    have hst2 : ∀ x ∈ ((List.range N).reverse).erase j,
        s2.store x = (connectList (List.range N)).store x := by
      intro x hx
      rw [hstateB, d5 x (hmemE x hx).1]
    have hinv2 : SufInv s2 s2.mConnections := by
      apply SufInv_of_whole
      · rw [hmcB]
        exact List.Nodup.erase _ hnodL
      · intro x hx
        rw [hfree2, hmcB] at *
        intro hm
        exact (hmemE x hx).1 (List.mem_singleton.mp hm)
      · intro x hx
        rw [hmcB] at hx
        rw [hfr2]
        exact (hmemE x hx).2
    have hwalk2 := trigger_walk pureEnv (fun x => (s2.store x).func) s2 hinv2
      (fun i _ => rfl) (WalkOk_pure _ _)
    rw [hwalk2]
    show s2.mConnections.filter _ = _
    rw [← hmcB]
    apply List.filter_eq_self.mpr
    intro x hx
    show ((s2.store x).func).isSome = true
    rw [hmcB] at hx
    rw [hst2 x hx, connectRange_store N x (hmemE x hx).2]
    rfl

/-- C3 witness: with three subscriptions, records 0 and 2 disconnecting
themselves, and record 0's callback disconnecting the already-visited
record 2: the first trigger always invokes all of `[2, 1, 0]`, the
disconnected records leave the active list, and the second trigger skips
exactly them. -/
theorem C3_mid_trigger_disconnect_witness :
    0 < 2 ∧ 2 < 3 ∧
    (TEvent.trigger (selfDiscEnv (fun x => x == 0 || x == 2))
        (connectList (List.range 3))).2 = [2, 1, 0] ∧
    (TEvent.trigger (oneDiscEnv 0 2) (connectList (List.range 3))).2 =
      [2, 1, 0] ∧
    (TEvent.trigger pureEnv
        (TEvent.trigger (oneDiscEnv 0 2) (connectList (List.range 3))).1).2 =
      [1, 0] := by
  obtain ⟨h1, _, h3, h4, _, h6⟩ :=
    C3_mid_trigger_disconnect 3 (fun x => x == 0 || x == 2) 0 2
      (by decide) (by decide)
  refine ⟨by decide, by decide, ?_, ?_, ?_⟩
  · rw [h1]
    decide
  · rw [h4]
    decide
  · rw [h6]
    decide

/-- C4: with `N` subscriptions, the callback of record `k` connecting a
new subscription (payload `p`) mid-trigger: the in-progress trigger
invokes exactly the `N` pre-existing callbacks, once each in walk order —
the new subscription is *not* invoked (conjunct 1); the new record is
allocated id `N` and inserted at the head of the active list, storing `p`
(conjuncts 2 and 3); the next trigger invokes it, first (conjunct 4). -/
theorem C4_mid_trigger_connect (N k p : Nat) (hkN : k < N) :
    (TEvent.trigger (oneConnEnv k p) (connectList (List.range N))).2 =
      (List.range N).reverse ∧
    (TEvent.trigger (oneConnEnv k p) (connectList (List.range N))).1.mConnections =
      N :: (List.range N).reverse ∧
    ((TEvent.trigger (oneConnEnv k p) (connectList (List.range N))).1.store N).func =
      some p ∧
    (TEvent.trigger (oneConnEnv k p)
        (TEvent.trigger (oneConnEnv k p) (connectList (List.range N))).1).2 =
      N :: (List.range N).reverse := by
  obtain ⟨c1, c2, c3⟩ := connectRange_lists N
  have hnodL : ((List.range N).reverse).Nodup :=
    List.nodup_reverse.mpr (List.nodup_range _)
  have hcc : ∀ x ∈ (List.range N).reverse, ∀ c,
      ((connectList (List.range N)).store x).func = some c → c = x := by
    intro x hx c hc
    rw [connectRange_funcs N x hx] at hc
    exact (Option.some_inj.mp hc).symm
  have hsplit := rangeRev_split k N (by omega)
  have hAmem : ∀ x ∈ (List.range' (k+1) (N-k-1)).reverse, k + 1 ≤ x ∧ x < N := by
    intro x hx
    have h2 := List.mem_range'_1.mp (List.mem_reverse.mp hx)
    omega
  have hBmem : ∀ x ∈ (List.range k).reverse, x < k := by
    intro x hx
    exact List.mem_range.mp (List.mem_reverse.mp hx)
  have hkA : k ∉ (List.range' (k+1) (N-k-1)).reverse := by
    intro hm
    have := hAmem k hm
    omega
  have hkB : k ∉ (List.range k).reverse := by
    intro hm
    have := hBmem k hm
    omega
  have henv : ∀ c, c ≠ k → oneConnEnv k p c = [] := by
    intro c hc
    simp [oneConnEnv, hc]
  have hccA : ∀ x ∈ (List.range' (k+1) (N-k-1)).reverse, ∀ c,
      ((connectList (List.range N)).store x).func = some c → c = x := by
    intro x hx
    exact hcc x (by rw [hsplit]; exact List.mem_append_left _ hx)
  have hccB : ∀ x ∈ (List.range k).reverse, ∀ c,
      ((connectList (List.range N)).store x).func = some c → c = x := by
    intro x hx
    refine hcc x ?_
    rw [hsplit]
    exact List.mem_append_right _ (List.mem_cons_of_mem k hx)
  have hwalk := trigger_walk (oneConnEnv k p)
    (fun x => ((connectList (List.range N)).store x).func)
    (connectList (List.range N)) (connectRange_SufInv N) (fun i _ => rfl)
    (by rw [c1]; exact WalkOk_oneConn k p _ _)
  have htrace : (TEvent.trigger (oneConnEnv k p) (connectList (List.range N))).2 =
      (List.range N).reverse := by
    rw [hwalk]
    show (connectList (List.range N)).mConnections.filter _ = _
    rw [c1]
    apply List.filter_eq_self.mpr
    intro x hx
    show (((connectList (List.range N)).store x).func).isSome = true
    rw [connectRange_funcs N x hx]
    rfl
  have hfk : ((connectList (List.range N)).store k).func = some k := by
    rw [connectRange_store N k hkN]
  have hrunk : runActions (connectList (List.range N)) (oneConnEnv k p k) =
      (TEvent.connect (connectList (List.range N)) p).1 := by
    rw [show oneConnEnv k p k = [TAction.connect p] from by simp [oneConnEnv]]
    rfl
  obtain ⟨_, e2, e3, e4, e5, e6⟩ := connect_fresh (connectList (List.range N)) p c2
  have hstate : (TEvent.trigger (oneConnEnv k p) (connectList (List.range N))).1 =
      (TEvent.connect (connectList (List.range N)) p).1 := by
    rw [hwalk]
    show walkFold _ _ _ (connectList (List.range N)).mConnections = _
    rw [c1, hsplit, walkFold_append,
      walkFold_skip (oneConnEnv k p) _ k henv _ _ hccA hkA,
      walkFold_cons_some _ _ _ k _ k hfk, hrunk,
      walkFold_skip (oneConnEnv k p) _ k henv _ _ hccB hkB]
  have hmcN : (TEvent.trigger (oneConnEnv k p) (connectList (List.range N))).1.mConnections =
      N :: (List.range N).reverse := by
    rw [hstate, e2, c3, c1]
  have hstN : ((TEvent.trigger (oneConnEnv k p) (connectList (List.range N))).1.store N).func =
      some p := by
    have e5n := e5
    rw [c3] at e5n
    rw [hstate, e5n]
  refine ⟨htrace, hmcN, hstN, ?_⟩
  set s1 := (TEvent.trigger (oneConnEnv k p) (connectList (List.range N))).1 with hs1
  have hfree1 : s1.mFreeConnections = [] := by
    rw [hstate, e3]
  have hfr1 : s1.fresh = N + 1 := by
    rw [hstate, e4, c3]
  have hstold : ∀ x, x < N → s1.store x = (connectList (List.range N)).store x := by
    intro x hx
    rw [hstate, e6 x (by rw [c3]; omega)]
  have hinv1 : SufInv s1 s1.mConnections := by
    apply SufInv_of_whole
    · rw [hmcN]
      refine List.Nodup.cons ?_ hnodL
      intro hm
      have := List.mem_range.mp (List.mem_reverse.mp hm)
      omega
    · intro x _
      rw [hfree1]
      exact List.not_mem_nil x
    · intro x hx
      rw [hmcN] at hx
      rw [hfr1]
      rcases List.mem_cons.mp hx with rfl | hm
      · omega
      · have := List.mem_range.mp (List.mem_reverse.mp hm)
        omega
  have hwalk1 := trigger_walk (oneConnEnv k p) (fun x => (s1.store x).func) s1
    hinv1 (fun i _ => rfl) (WalkOk_oneConn k p _ _)
  rw [hwalk1]
  show s1.mConnections.filter _ = _
  rw [← hmcN]
  apply List.filter_eq_self.mpr
  intro x hx
  show ((s1.store x).func).isSome = true
  rw [hmcN] at hx
  rcases List.mem_cons.mp hx with rfl | hm
  · rw [hstN]
    rfl
  · have hxN := List.mem_range.mp (List.mem_reverse.mp hm)
    rw [hstold x hxN, connectRange_funcs N x hm]
    rfl

/-- C4 witness: with two subscriptions and record 0's callback connecting
a new subscription with payload 9, the first trigger invokes `[1, 0]`
only, the new record 2 sits at the head storing payload 9, and the next
trigger invokes `[2, 1, 0]`. -/
theorem C4_mid_trigger_connect_witness :
    0 < 2 ∧
    (TEvent.trigger (oneConnEnv 0 9) (connectList (List.range 2))).2 = [1, 0] ∧
    (TEvent.trigger (oneConnEnv 0 9)
        (TEvent.trigger (oneConnEnv 0 9) (connectList (List.range 2))).1).2 =
      [2, 1, 0] := by
  obtain ⟨h1, _, _, h4⟩ := C4_mid_trigger_connect 2 0 9 (by decide)
  refine ⟨by decide, ?_, ?_⟩
  · rw [h1]
    decide
  · rw [h4]
    decide

/-! ### The registry invariant over whole operation sequences -/

theorem WFS_empty : WFS emptyEventData [] := by
  refine ⟨List.nodup_nil, List.nodup_nil, ?_, ?_, ?_, ?_, List.nodup_nil, ?_,
    ?_, ?_, ?_⟩
  · exact fun i hi => absurd hi (List.not_mem_nil i)
  · exact fun i hi => absurd hi (List.not_mem_nil i)
  · exact fun i hi => absurd hi (List.not_mem_nil i)
  · intro i hi
    rw [emptyEventData_fresh] at hi
    exact absurd hi (by omega)
  · exact fun i hi => absurd hi (List.not_mem_nil i)
  · intro i
    rw [if_neg (List.not_mem_nil i)]
    rfl
  · exact fun i hi => absurd hi (List.not_mem_nil i)
  · exact fun i hi => absurd hi (List.not_mem_nil i)

theorem WFS_connect {s : EventData} {hs : List Nat} (w : WFS s hs) (c : Nat) :
    WFS (TEvent.connect s c).1 ((TEvent.connect s c).2 :: hs) := by
  cases hfc : s.mFreeConnections with
  | nil =>
    obtain ⟨h2, hmc, hmf, hfr, hsf, hst⟩ := connect_fresh s c hfc
    have hfreshA : s.fresh ∉ s.mConnections := fun hm => absurd (w.boundA _ hm) (by omega)
    have hfreshH : s.fresh ∉ hs := fun hm => hfreshA (w.hSub _ hm)
    rw [h2]
    refine ⟨?_, ?_, ?_, ?_, ?_, ?_, ?_, ?_, ?_, ?_, ?_⟩
    · rw [hmc]
      exact List.Nodup.cons hfreshA w.nodupA
    · rw [hmf]
      exact List.nodup_nil
    · intro i _
      rw [hmf]
      exact List.not_mem_nil i
    · intro i hi
      rw [hmc] at hi
      rw [hfr]
      rcases List.mem_cons.mp hi with rfl | hm
      · omega
      · have := w.boundA i hm
        omega
    · intro i hi
      rw [hmf] at hi
      exact absurd hi (List.not_mem_nil i)
    · intro i hi
      rw [hfr] at hi
      rw [hmc]
      by_cases he : i = s.fresh
      · exact Or.inl (he ▸ List.mem_cons_self _ _)
      · rcases w.cover i (by omega) with hm | hm
        · exact Or.inl (List.mem_cons_of_mem _ hm)
        · rw [hfc] at hm
          exact absurd hm (List.not_mem_nil i)
    · exact List.Nodup.cons hfreshH w.nodupH
    · intro i hi
      rw [hmc]
      rcases List.mem_cons.mp hi with rfl | hm
      · exact List.mem_cons_self _ _
      · exact List.mem_cons_of_mem _ (w.hSub i hm)
    · intro i
      by_cases he : i = s.fresh
      · subst he
        rw [hsf, if_pos (List.mem_cons_self _ _)]
      · rw [hst i he]
        by_cases hm : i ∈ hs
        · rw [w.linksEq i, if_pos hm, if_pos (List.mem_cons_of_mem _ hm)]
        · rw [w.linksEq i, if_neg hm, if_neg (by
            intro hcm
            rcases List.mem_cons.mp hcm with he2 | hm2
            · exact he he2
            · exact hm hm2)]
    · intro i hi
      rw [hmf] at hi
      exact absurd hi (List.not_mem_nil i)
    · intro i hi hact
      rw [hmc] at hi
      rcases List.mem_cons.mp hi with rfl | hm
      · rw [hsf] at hact
        exact absurd hact (by simp)
      · have hne : i ≠ s.fresh := fun e => hfreshA (e ▸ hm)
        rw [hst i hne] at hact
        exact List.mem_cons_of_mem _ (w.activeLive i hm hact)
  | cons f restF =>
    obtain ⟨h2, hmc, hmf, hfr, hsf, hst⟩ := connect_pop s c f restF hfc
    have hfF : f ∈ s.mFreeConnections := by
      rw [hfc]
      exact List.mem_cons_self f restF
    have hfA : f ∉ s.mConnections := fun hm => w.disjAF f hm hfF
    have hfH : f ∉ hs := fun hm => hfA (w.hSub f hm)
    have hfR : f ∉ restF := by
      have := w.nodupF
      rw [hfc] at this
      exact (List.nodup_cons.mp this).1
    rw [h2]
    refine ⟨?_, ?_, ?_, ?_, ?_, ?_, ?_, ?_, ?_, ?_, ?_⟩
    · rw [hmc]
      exact List.Nodup.cons hfA w.nodupA
    · rw [hmf]
      have := w.nodupF
      rw [hfc] at this
      exact (List.nodup_cons.mp this).2
    · intro i hi
      rw [hmc] at hi
      rw [hmf]
      rcases List.mem_cons.mp hi with rfl | hm
      · exact hfR
      · intro hm2
        exact w.disjAF i hm (by rw [hfc]; exact List.mem_cons_of_mem f hm2)
    · intro i hi
      rw [hmc] at hi
      rw [hfr]
      rcases List.mem_cons.mp hi with rfl | hm
      · exact w.boundF _ hfF
      · exact w.boundA i hm
    · intro i hi
      rw [hmf] at hi
      rw [hfr]
      exact w.boundF i (by rw [hfc]; exact List.mem_cons_of_mem f hi)
    · intro i hi
      rw [hfr] at hi
      rw [hmc, hmf]
      rcases w.cover i hi with hm | hm
      · exact Or.inl (List.mem_cons_of_mem _ hm)
      · rw [hfc] at hm
        rcases List.mem_cons.mp hm with rfl | hm2
        · exact Or.inl (List.mem_cons_self _ _)
        · exact Or.inr hm2
    · exact List.Nodup.cons hfH w.nodupH
    · intro i hi
      rw [hmc]
      rcases List.mem_cons.mp hi with rfl | hm
      · exact List.mem_cons_self _ _
      · exact List.mem_cons_of_mem _ (w.hSub i hm)
    · intro i
      by_cases he : i = f
      · subst he
        rw [hsf, if_pos (List.mem_cons_self _ _)]
      · rw [hst i he]
        by_cases hm : i ∈ hs
        · rw [w.linksEq i, if_pos hm, if_pos (List.mem_cons_of_mem _ hm)]
        · rw [w.linksEq i, if_neg hm, if_neg (by
            intro hcm
            rcases List.mem_cons.mp hcm with he2 | hm2
            · exact he he2
            · exact hm hm2)]
    · intro i hi
      rw [hmf] at hi
      have hne : i ≠ f := fun e => hfR (e ▸ hi)
      rw [hst i hne]
      exact w.freeInactive i (by rw [hfc]; exact List.mem_cons_of_mem f hi)
    · intro i hi hact
      rw [hmc] at hi
      rcases List.mem_cons.mp hi with rfl | hm
      · rw [hsf] at hact
        exact absurd hact (by simp)
      · have hne : i ≠ f := fun e => hfA (e ▸ hm)
        rw [hst i hne] at hact
        exact List.mem_cons_of_mem _ (w.activeLive i hm hact)

theorem WFS_disconnect {s : EventData} {hs : List Nat} (w : WFS s hs) {i : Nat}
    (hin : i ∈ hs) : WFS (EventInternalData.disconnect s i) (hs.erase i) := by
  have hiA : i ∈ s.mConnections := w.hSub i hin
  have hiF : i ∉ s.mFreeConnections := w.disjAF i hiA
  have hlk : (s.store i).handleLinks = 1 := by rw [w.linksEq i, if_pos hin]
  obtain ⟨d1, d2, d3, d4, d5⟩ := disconnect_one s i hlk
  refine ⟨?_, ?_, ?_, ?_, ?_, ?_, ?_, ?_, ?_, ?_, ?_⟩
  · rw [d1]
    exact List.Nodup.erase _ w.nodupA
  · rw [d2]
    exact List.Nodup.cons hiF w.nodupF
  · intro x hx
    rw [d1] at hx
    rw [d2]
    obtain ⟨hne, hxA⟩ := (List.Nodup.mem_erase_iff w.nodupA).mp hx
    intro hm
    rcases List.mem_cons.mp hm with he | hm2
    · exact hne he
    · exact w.disjAF x hxA hm2
  · intro x hx
    rw [d1] at hx
    rw [d3]
    exact w.boundA x (List.mem_of_mem_erase hx)
  · intro x hx
    rw [d2] at hx
    rw [d3]
    rcases List.mem_cons.mp hx with rfl | hm
    · exact w.boundA _ hiA
    · exact w.boundF x hm
  · intro x hx
    rw [d3] at hx
    rw [d1, d2]
    rcases w.cover x hx with hm | hm
    · by_cases he : x = i
      · exact Or.inr (he ▸ List.mem_cons_self _ _)
      · exact Or.inl ((List.Nodup.mem_erase_iff w.nodupA).mpr ⟨he, hm⟩)
    · exact Or.inr (List.mem_cons_of_mem _ hm)
  · exact List.Nodup.erase _ w.nodupH
  · intro x hx
    rw [d1]
    obtain ⟨hne, hxH⟩ := (List.Nodup.mem_erase_iff w.nodupH).mp hx
    exact (List.Nodup.mem_erase_iff w.nodupA).mpr ⟨hne, w.hSub x hxH⟩
  · intro x
    by_cases he : x = i
    · subst he
      rw [d4, if_neg (fun hm => ((List.Nodup.mem_erase_iff w.nodupH).mp hm).1 rfl)]
    · rw [d5 x he, w.linksEq x]
      by_cases hm : x ∈ hs
      · rw [if_pos hm, if_pos ((List.Nodup.mem_erase_iff w.nodupH).mpr ⟨he, hm⟩)]
      · rw [if_neg hm,
          if_neg (fun hm2 => hm ((List.Nodup.mem_erase_iff w.nodupH).mp hm2).2)]
  · intro x hx
    rw [d2] at hx
    rcases List.mem_cons.mp hx with rfl | hm
    · rw [d4]
    · have hne : x ≠ i := fun e => hiF (e ▸ hm)
      rw [d5 x hne]
      exact w.freeInactive x hm
  · intro x hx hact
    rw [d1] at hx
    obtain ⟨hne, hxA⟩ := (List.Nodup.mem_erase_iff w.nodupA).mp hx
    rw [d5 x hne] at hact
    exact (List.Nodup.mem_erase_iff w.nodupH).mpr ⟨hne, w.activeLive x hxA hact⟩

theorem WFS_freeHandle {s : EventData} {hs : List Nat} (w : WFS s hs) {i : Nat}
    (hin : i ∈ hs) : WFS (EventInternalData.freeHandle s i) (hs.erase i) := by
  have hiA : i ∈ s.mConnections := w.hSub i hin
  have hiF : i ∉ s.mFreeConnections := w.disjAF i hiA
  have hlk : (s.store i).handleLinks = 1 := by rw [w.linksEq i, if_pos hin]
  cases hact : (s.store i).isActive with
  | false =>
    obtain ⟨d1, d2, d3, d4, d5⟩ := freeHandle_reclaim s i hact hlk
    refine ⟨?_, ?_, ?_, ?_, ?_, ?_, ?_, ?_, ?_, ?_, ?_⟩
    · rw [d1]
      exact List.Nodup.erase _ w.nodupA
    · rw [d2]
      exact List.Nodup.cons hiF w.nodupF
    · intro x hx
      rw [d1] at hx
      rw [d2]
      obtain ⟨hne, hxA⟩ := (List.Nodup.mem_erase_iff w.nodupA).mp hx
      intro hm
      rcases List.mem_cons.mp hm with he | hm2
      · exact hne he
      · exact w.disjAF x hxA hm2
    · intro x hx
      rw [d1] at hx
      rw [d3]
      exact w.boundA x (List.mem_of_mem_erase hx)
    · intro x hx
      rw [d2] at hx
      rw [d3]
      rcases List.mem_cons.mp hx with rfl | hm
      · exact w.boundA _ hiA
      · exact w.boundF x hm
    · intro x hx
      rw [d3] at hx
      rw [d1, d2]
      rcases w.cover x hx with hm | hm
      · by_cases he : x = i
        · exact Or.inr (he ▸ List.mem_cons_self _ _)
        · exact Or.inl ((List.Nodup.mem_erase_iff w.nodupA).mpr ⟨he, hm⟩)
      · exact Or.inr (List.mem_cons_of_mem _ hm)
    · exact List.Nodup.erase _ w.nodupH
    · intro x hx
      rw [d1]
      obtain ⟨hne, hxH⟩ := (List.Nodup.mem_erase_iff w.nodupH).mp hx
      exact (List.Nodup.mem_erase_iff w.nodupA).mpr ⟨hne, w.hSub x hxH⟩
    · intro x
      by_cases he : x = i
      · subst he
        rw [d4, if_neg (fun hm => ((List.Nodup.mem_erase_iff w.nodupH).mp hm).1 rfl)]
      · rw [d5 x he, w.linksEq x]
        by_cases hm : x ∈ hs
        · rw [if_pos hm, if_pos ((List.Nodup.mem_erase_iff w.nodupH).mpr ⟨he, hm⟩)]
        · rw [if_neg hm,
            if_neg (fun hm2 => hm ((List.Nodup.mem_erase_iff w.nodupH).mp hm2).2)]
    · intro x hx
      rw [d2] at hx
      rcases List.mem_cons.mp hx with rfl | hm
      · have hfa : ((EventInternalData.freeHandle s x).store x).isActive =
            (s.store x).isActive := by
          rw [d4]
        rw [hfa, hact]
      · have hne : x ≠ i := fun e => hiF (e ▸ hm)
        rw [d5 x hne]
        exact w.freeInactive x hm
    · intro x hx hact2
      rw [d1] at hx
      obtain ⟨hne, hxA⟩ := (List.Nodup.mem_erase_iff w.nodupA).mp hx
      rw [d5 x hne] at hact2
      exact (List.Nodup.mem_erase_iff w.nodupH).mpr ⟨hne, w.activeLive x hxA hact2⟩
  | true =>
    obtain ⟨d1, d2, d3, d4, d5⟩ := freeHandle_active s i 1 hact hlk (by omega)
      (by unfold UINT32LIM; omega)
    refine ⟨?_, ?_, ?_, ?_, ?_, ?_, ?_, ?_, ?_, ?_, ?_⟩
    · rw [d1]
      exact w.nodupA
    · rw [d2]
      exact w.nodupF
    · intro x hx
      rw [d1] at hx
      rw [d2]
      exact w.disjAF x hx
    · intro x hx
      rw [d1] at hx
      rw [d3]
      exact w.boundA x hx
    · intro x hx
      rw [d2] at hx
      rw [d3]
      exact w.boundF x hx
    · intro x hx
      rw [d3] at hx
      rw [d1, d2]
      exact w.cover x hx
    · exact List.Nodup.erase _ w.nodupH
    · intro x hx
      rw [d1]
      exact w.hSub x ((List.Nodup.mem_erase_iff w.nodupH).mp hx).2
    · intro x
      by_cases he : x = i
      · subst he
        rw [if_neg (fun hm => ((List.Nodup.mem_erase_iff w.nodupH).mp hm).1 rfl)]
        rw [d4]
      · rw [d5 x he, w.linksEq x]
        by_cases hm : x ∈ hs
        · rw [if_pos hm, if_pos ((List.Nodup.mem_erase_iff w.nodupH).mpr ⟨he, hm⟩)]
        · rw [if_neg hm,
            if_neg (fun hm2 => hm ((List.Nodup.mem_erase_iff w.nodupH).mp hm2).2)]
    · intro x hx
      rw [d2] at hx
      have hne : x ≠ i := fun e => hiF (e ▸ hx)
      rw [d5 x hne]
      exact w.freeInactive x hx
    · intro x hx hact2
      rw [d1] at hx
      by_cases he : x = i
      · subst he
        have hfa : (s.store x).isActive = false := by
          rw [d4] at hact2
          exact hact2
        rw [hact] at hfa
        exact absurd hfa (by simp)
      · rw [d5 x he] at hact2
        exact (List.Nodup.mem_erase_iff w.nodupH).mpr
          ⟨he, w.activeLive x hx hact2⟩

theorem WFS_deactivate_handled {s : EventData} {hs : List Nat} (w : WFS s hs)
    {i : Nat} (hin : i ∈ hs) : WFS (deactivate s i) hs := by
  have hiA : i ∈ s.mConnections := w.hSub i hin
  have hiF : i ∉ s.mFreeConnections := w.disjAF i hiA
  refine ⟨w.nodupA, w.nodupF, w.disjAF, w.boundA, w.boundF, w.cover, w.nodupH,
    w.hSub, ?_, ?_, ?_⟩
  · intro x
    by_cases he : x = i
    · subst he
      rw [deactivate_store_self]
      exact w.linksEq x
    · rw [deactivate_store_ne s i he]
      exact w.linksEq x
  · intro x hx
    have hne : x ≠ i := fun e => hiF (e ▸ hx)
    rw [deactivate_store_ne s i hne]
    exact w.freeInactive x hx
  · intro x hx hact
    by_cases he : x = i
    · exact he ▸ hin
    · rw [deactivate_store_ne s i he] at hact
      exact w.activeLive x hx hact

theorem WFS_deactivate_free {s : EventData} {hs : List Nat} (w : WFS s hs)
    {i : Nat} (hiA : i ∈ s.mConnections) (hiH : i ∉ hs) :
    WFS (EventInternalData.free (deactivate s i) i) hs := by
  have hiF : i ∉ s.mFreeConnections := w.disjAF i hiA
  refine ⟨?_, ?_, ?_, ?_, ?_, ?_, w.nodupH, ?_, ?_, ?_, ?_⟩
  · exact List.Nodup.erase _ w.nodupA
  · exact List.Nodup.cons hiF w.nodupF
  · intro x hx
    obtain ⟨hne, hxA⟩ := (List.Nodup.mem_erase_iff w.nodupA).mp hx
    intro hm
    rcases List.mem_cons.mp hm with he | hm2
    · exact hne he
    · exact w.disjAF x hxA hm2
  · intro x hx
    exact w.boundA x (List.mem_of_mem_erase hx)
  · intro x hx
    rcases List.mem_cons.mp hx with rfl | hm
    · exact w.boundA _ hiA
    · exact w.boundF x hm
  · intro x hx
    rcases w.cover x hx with hm | hm
    · by_cases he : x = i
      · exact Or.inr (he ▸ List.mem_cons_self _ _)
      · exact Or.inl ((List.Nodup.mem_erase_iff w.nodupA).mpr ⟨he, hm⟩)
    · exact Or.inr (List.mem_cons_of_mem _ hm)
  · intro x hx
    have hxA := w.hSub x hx
    have hne : x ≠ i := fun e => hiH (e ▸ hx)
    exact (List.Nodup.mem_erase_iff w.nodupA).mpr ⟨hne, hxA⟩
  · intro x
    by_cases he : x = i
    · subst he
      rw [show (EventInternalData.free (deactivate s x) x).store x =
        (deactivate s x).store x from rfl, deactivate_store_self]
      exact w.linksEq x
    · rw [show (EventInternalData.free (deactivate s i) i).store x =
        (deactivate s i).store x from rfl, deactivate_store_ne s i he]
      exact w.linksEq x
  · intro x hx
    rcases List.mem_cons.mp hx with rfl | hm
    · rw [show (EventInternalData.free (deactivate s x) x).store x =
        (deactivate s x).store x from rfl, deactivate_store_self]
    · have hne : x ≠ i := fun e => hiF (e ▸ hm)
      rw [show (EventInternalData.free (deactivate s i) i).store x =
        (deactivate s i).store x from rfl, deactivate_store_ne s i hne]
      exact w.freeInactive x hm
  · intro x hx hact
    obtain ⟨hne, hxA⟩ := (List.Nodup.mem_erase_iff w.nodupA).mp hx
    rw [show (EventInternalData.free (deactivate s i) i).store x =
      (deactivate s i).store x from rfl, deactivate_store_ne s i hne] at hact
    exact w.activeLive x hxA hact

theorem WFS_clearLoop :
    ∀ (L : List Nat) (s : EventData) (hs : List Nat), WFS s hs →
    (∀ x ∈ L, x ∈ s.mConnections) → L.Nodup →
    WFS (EventInternalData.clearLoop s L) hs := by
  intro L
  induction L with
  | nil => exact fun s hs w _ _ => w
  | cons i rest ih =>
    intro s hs w hsub hnd
    have hiA : i ∈ s.mConnections := hsub i (List.mem_cons_self i rest)
    rw [clearLoop_cons, deactivate_store_self]
    by_cases hmem : i ∈ hs
    · have hlk : (s.store i).handleLinks = 1 := by rw [w.linksEq i, if_pos hmem]
      rw [show ((⟨false, (s.store i).handleLinks, none⟩ : ConnData).handleLinks) =
        (s.store i).handleLinks from rfl, hlk, if_neg (by omega)]
      apply ih (deactivate s i) hs (WFS_deactivate_handled w hmem)
      · intro x hx
        exact hsub x (List.mem_cons_of_mem i hx)
      · exact (List.nodup_cons.mp hnd).2
    · have hlk : (s.store i).handleLinks = 0 := by rw [w.linksEq i, if_neg hmem]
      rw [show ((⟨false, (s.store i).handleLinks, none⟩ : ConnData).handleLinks) =
        (s.store i).handleLinks from rfl, hlk, if_pos rfl]
      apply ih _ hs (WFS_deactivate_free w hiA hmem)
      · intro x hx
        have hne : x ≠ i := fun e => (List.nodup_cons.mp hnd).1 (e ▸ hx)
        show x ∈ ((deactivate s i).mConnections).erase i
        exact (List.Nodup.mem_erase_iff w.nodupA).mpr
          ⟨hne, hsub x (List.mem_cons_of_mem i hx)⟩
      · exact (List.nodup_cons.mp hnd).2

theorem WFS_clear {s : EventData} {hs : List Nat} (w : WFS s hs) :
    WFS (EventInternalData.clear s) hs :=
  WFS_clearLoop s.mConnections s hs w (fun _ hx => hx) w.nodupA

theorem applyOp_connect (s : EventData) (hs : List Nat) (c : Nat) :
    applyOp (s, hs) (Op.connect c) =
      ((TEvent.connect s c).1, (TEvent.connect s c).2 :: hs) := rfl

theorem applyOp_disconnect (s : EventData) (hs : List Nat) (i : Nat) :
    applyOp (s, hs) (Op.disconnect i) =
      if i ∈ hs then (EventInternalData.disconnect s i, hs.erase i)
      else (s, hs) := rfl

theorem applyOp_releaseHandle (s : EventData) (hs : List Nat) (i : Nat) :
    applyOp (s, hs) (Op.releaseHandle i) =
      if i ∈ hs then (EventInternalData.freeHandle s i, hs.erase i)
      else (s, hs) := rfl

theorem applyOp_clear (s : EventData) (hs : List Nat) :
    applyOp (s, hs) Op.clear = (EventInternalData.clear s, hs) := rfl

theorem applyOp_trigger (s : EventData) (hs : List Nat) :
    applyOp (s, hs) Op.trigger = (s, hs) := by
  show ((TEvent.trigger pureEnv s).1, hs) = (s, hs)
  rw [trigger_pure_state]

theorem WFS_applyOp {p : EventData × List Nat} (w : WFS p.1 p.2) (op : Op) :
    WFS (applyOp p op).1 (applyOp p op).2 := by
  obtain ⟨s, hs⟩ := p
  cases op with
  | connect c =>
    rw [applyOp_connect]
    exact WFS_connect w c
  | disconnect i =>
    rw [applyOp_disconnect]
    by_cases hm : i ∈ hs
    · rw [if_pos hm]
      exact WFS_disconnect w hm
    · rw [if_neg hm]
      exact w
  | releaseHandle i =>
    rw [applyOp_releaseHandle]
    by_cases hm : i ∈ hs
    · rw [if_pos hm]
      exact WFS_freeHandle w hm
    · rw [if_neg hm]
      exact w
  | clear =>
    rw [applyOp_clear]
    exact WFS_clear w
  | trigger =>
    rw [applyOp_trigger]
    exact w

theorem WFS_foldl :
    ∀ (ops : List Op) (p : EventData × List Nat), WFS p.1 p.2 →
    WFS (ops.foldl applyOp p).1 (ops.foldl applyOp p).2 := by
  intro ops
  induction ops with
  | nil => exact fun p w => w
  | cons op ops ih =>
    intro p w
    rw [List.foldl_cons]
    exact ih (applyOp p op) (WFS_applyOp w op)

theorem WFS_applyOps (ops : List Op) :
    WFS (applyOps ops).1 (applyOps ops).2 :=
  WFS_foldl ops (emptyEventData, []) WFS_empty

theorem WFS_length {s : EventData} {hs : List Nat} (w : WFS s hs) :
    s.mConnections.length + s.mFreeConnections.length = s.fresh := by
  have hperm : (s.mConnections ++ s.mFreeConnections).Perm (List.range s.fresh) := by
    refine (List.perm_ext_iff_of_nodup ?_ (List.nodup_range _)).mpr ?_
    · exact List.Nodup.append w.nodupA w.nodupF w.disjAF
    · intro a
      constructor
      · intro ha
        rcases List.mem_append.mp ha with h | h
        · exact List.mem_range.mpr (w.boundA a h)
        · exact List.mem_range.mpr (w.boundF a h)
      · intro ha
        exact List.mem_append.mpr ((w.cover a (List.mem_range.mp ha)).imp id id)
  have hlen := hperm.length_eq
  rw [List.length_append, List.length_range] at hlen
  exact hlen

/-- C8: across every sequence of `connect`, `disconnect` (through a live
handle), `releaseHandle` (handle destruction), `clear` and `trigger`
operations from a fresh registry, no active-list record ever has
`handleRefCount = 0` together with `active = false` — a record satisfying
both is reclaimed within the very operation that establishes them
(conjunct 1) — and every free-list record has exactly
`handleRefCount = 0` and `active = false`, i.e. `Inactive ∧ refcount 0`
is the only state from which a record moves to the free list
(conjunct 2). -/
theorem C8_reclaim_invariant (ops : List Op) :
    (∀ i ∈ (applyOps ops).1.mConnections,
      ¬(((applyOps ops).1.store i).handleLinks = 0 ∧
        ((applyOps ops).1.store i).isActive = false)) ∧
    (∀ i ∈ (applyOps ops).1.mFreeConnections,
      ((applyOps ops).1.store i).handleLinks = 0 ∧
      ((applyOps ops).1.store i).isActive = false) := by
  have w := WFS_applyOps ops
  constructor
  · rintro i hi ⟨hl, ha⟩
    have hh := w.activeLive i hi ha
    rw [w.linksEq i, if_pos hh] at hl
    exact one_ne_zero hl
  · intro i hi
    refine ⟨?_, w.freeInactive i hi⟩
    rw [w.linksEq i, if_neg (fun hh => w.disjAF i (w.hSub i hh) hi)]

/-- C8 witness: after connect–connect–disconnect, record 0 is on the free
list in exactly the reclaimed state (`handleRefCount = 0`, inactive). -/
theorem C8_reclaim_invariant_witness :
    0 ∈ (applyOps [Op.connect 5, Op.connect 6, Op.disconnect 0]).1.mFreeConnections ∧
    ((applyOps [Op.connect 5, Op.connect 6, Op.disconnect 0]).1.store 0).handleLinks = 0 ∧
    ((applyOps [Op.connect 5, Op.connect 6, Op.disconnect 0]).1.store 0).isActive = false := by
  have h := (C8_reclaim_invariant [Op.connect 5, Op.connect 6, Op.disconnect 0]).2
    0 (by decide)
  exact ⟨by decide, h.1, h.2⟩

/-! ### Record recycling -/

theorem applyOps_connects :
    ∀ (cs : List Nat) (s : EventData) (hs : List Nat), s.mFreeConnections = [] →
    (cs.map Op.connect).foldl applyOp (s, hs) =
      (connectFrom s cs, (List.range' s.fresh cs.length).reverse ++ hs) := by
  intro cs
  induction cs with
  | nil =>
    intro s hs _
    rw [List.map_nil, List.foldl_nil]
    rfl
  | cons c cs ih =>
    intro s hs h
    rw [List.map_cons, List.foldl_cons, applyOp_connect]
    obtain ⟨h2, _, hmf, hfr, _, _⟩ := connect_fresh s c h
    rw [ih (TEvent.connect s c).1 _ hmf, h2, hfr]
    have e1 : connectFrom (TEvent.connect s c).1 cs = connectFrom s (c :: cs) := rfl
    rw [e1, List.length_cons, List.range'_succ, List.reverse_cons,
      List.append_assoc, List.singleton_append]

theorem applyOps_disconnects :
    ∀ (L : List Nat) (s : EventData) (hs : List Nat), WFS s hs → L.Nodup →
    (∀ i ∈ L, i ∈ hs) →
    ((L.map Op.disconnect).foldl applyOp (s, hs)).1.mConnections =
      L.foldl List.erase s.mConnections ∧
    ((L.map Op.disconnect).foldl applyOp (s, hs)).1.fresh = s.fresh := by
  intro L
  induction L with
  | nil =>
    intro s hs _ _ _
    exact ⟨rfl, rfl⟩
  | cons i rest ih =>
    intro s hs w hnd hmem
    have hin : i ∈ hs := hmem i (List.mem_cons_self i rest)
    have hlk : (s.store i).handleLinks = 1 := by rw [w.linksEq i, if_pos hin]
    obtain ⟨d1, _, d3, _, _⟩ := disconnect_one s i hlk
    rw [List.map_cons, List.foldl_cons, applyOp_disconnect, if_pos hin,
      List.foldl_cons]
    obtain ⟨ih1, ih2⟩ := ih (EventInternalData.disconnect s i) (hs.erase i)
      (WFS_disconnect w hin) (List.nodup_cons.mp hnd).2
      (fun x hx => (List.Nodup.mem_erase_iff w.nodupH).mpr
        ⟨fun e => (List.nodup_cons.mp hnd).1 (e ▸ hx),
         hmem x (List.mem_cons_of_mem i hx)⟩)
    exact ⟨by rw [ih1, d1], by rw [ih2, d3]⟩

theorem foldl_erase_all :
    ∀ (L M : List Nat), M.Perm L → L.foldl List.erase M = [] := by
  intro L
  induction L with
  | nil =>
    intro M h
    rw [List.foldl_nil]
    exact h.eq_nil
  | cons a L ih =>
    intro M h
    rw [List.foldl_cons]
    apply ih
    have h2 := h.erase a
    rwa [List.erase_cons_head] at h2

theorem applyOps_reconnect :
    ∀ (cs : List Nat) (s : EventData) (hs : List Nat), WFS s hs →
    cs.length ≤ s.mFreeConnections.length →
    ((cs.map Op.connect).foldl applyOp (s, hs)).1.fresh = s.fresh ∧
    ((cs.map Op.connect).foldl applyOp (s, hs)).1.mFreeConnections.length =
      s.mFreeConnections.length - cs.length := by
  intro cs
  induction cs with
  | nil =>
    intro s hs _ _
    rw [List.map_nil, List.foldl_nil]
    exact ⟨rfl, by simp⟩
  | cons c cs ih =>
    intro s hs w hlen
    cases hfc : s.mFreeConnections with
    | nil =>
      rw [hfc, List.length_nil, List.length_cons] at hlen
      omega
    | cons f restF =>
      obtain ⟨_, _, hmf, hfr, _, _⟩ := connect_pop s c f restF hfc
      rw [List.map_cons, List.foldl_cons, applyOp_connect]
      obtain ⟨ih1, ih2⟩ := ih (TEvent.connect s c).1 _ (WFS_connect w c)
        (by
          rw [hmf]
          rw [hfc] at hlen
          simp only [List.length_cons] at hlen
          omega)
      refine ⟨by rw [ih1, hfr], ?_⟩
      rw [ih2, hmf]
      simp only [List.length_cons]
      omega

/-- C9: connecting `N` callbacks, disconnecting all `N` subscriptions,
then connecting `N` new callbacks leaves the active list with exactly `N`
records and no duplicate ids; the allocation counter still reads `N`
(every new record was recycled off the free list, none was newly
allocated and none leaked) and the free list is empty again. -/
theorem C9_recycle (cs cs2 : List Nat) (hlen : cs2.length = cs.length) :
    (applyOps (recycleOps cs cs2)).1.mConnections.length = cs.length ∧
    (applyOps (recycleOps cs cs2)).1.mConnections.Nodup ∧
    (applyOps (recycleOps cs cs2)).1.fresh = cs.length ∧
    (applyOps (recycleOps cs cs2)).1.mFreeConnections = [] := by
  have h1 := applyOps_connects cs emptyEventData [] rfl
  have h1q : (cs.map Op.connect).foldl applyOp (emptyEventData, []) =
      (connectList cs, (List.range cs.length).reverse) := by
    rw [h1, List.append_nil]
    show (connectList cs, (List.range' 0 cs.length).reverse) = _
    rw [← List.range_eq_range']
  have hsplit : applyOps (recycleOps cs cs2) =
      (cs2.map Op.connect).foldl applyOp
        (((List.range cs.length).map Op.disconnect).foldl applyOp
          (connectList cs, (List.range cs.length).reverse)) := by
    rw [applyOps, recycleOps, List.foldl_append, List.foldl_append, h1q]
  obtain ⟨c1, c2, c3, _⟩ := connectList_spec cs
  have w1 : WFS (connectList cs) ((List.range cs.length).reverse) := by
    have w := WFS_foldl (cs.map Op.connect) (emptyEventData, []) WFS_empty
    rw [h1q] at w
    exact w
  have h2 := applyOps_disconnects (List.range cs.length) (connectList cs)
    ((List.range cs.length).reverse) w1 (List.nodup_range _)
    (fun i hi => List.mem_reverse.mpr hi)
  set q2 := ((List.range cs.length).map Op.disconnect).foldl applyOp
    (connectList cs, (List.range cs.length).reverse) with hq2
  have hmc2 : q2.1.mConnections = [] := by
    rw [h2.1, c1]
    exact foldl_erase_all (List.range cs.length) _ (List.reverse_perm _)
  have hfr2 : q2.1.fresh = cs.length := by
    rw [h2.2, c3]
  have w2 : WFS q2.1 q2.2 :=
    WFS_foldl ((List.range cs.length).map Op.disconnect)
      (connectList cs, (List.range cs.length).reverse) w1
  have hfree2 : q2.1.mFreeConnections.length = cs.length := by
    have hl := WFS_length w2
    rw [hmc2, List.length_nil, hfr2] at hl
    omega
  have h3 := applyOps_reconnect cs2 q2.1 q2.2 w2 (by rw [hfree2, hlen])
  have w3 : WFS ((cs2.map Op.connect).foldl applyOp q2).1
      ((cs2.map Op.connect).foldl applyOp q2).2 :=
    WFS_foldl (cs2.map Op.connect) q2 w2
  have h3a : ((cs2.map Op.connect).foldl applyOp q2).1.fresh = q2.1.fresh := h3.1
  have h3b : ((cs2.map Op.connect).foldl applyOp q2).1.mFreeConnections.length =
      q2.1.mFreeConnections.length - cs2.length := h3.2
  have hfr3 : ((cs2.map Op.connect).foldl applyOp q2).1.fresh = cs.length := by
    rw [h3a, hfr2]
  have hfree3 : ((cs2.map Op.connect).foldl applyOp q2).1.mFreeConnections = [] := by
    apply List.eq_nil_of_length_eq_zero
    rw [h3b, hfree2, hlen]
    omega
  have hlen3 : ((cs2.map Op.connect).foldl applyOp q2).1.mConnections.length =
      cs.length := by
    have hl := WFS_length w3
    rw [hfree3, List.length_nil, hfr3] at hl
    omega
  rw [hsplit]
  exact ⟨hlen3, w3.nodupA, hfr3, hfree3⟩

/-- C9 witness: two subscriptions disconnected and two new ones connected
on a concrete registry: the active list holds 2 records, nothing was
allocated beyond the original 2 ids, and the free list is empty. -/
theorem C9_recycle_witness :
    ([7, 8] : List Nat).length = ([1, 2] : List Nat).length ∧
    (applyOps (recycleOps [1, 2] [7, 8])).1.mConnections.length = 2 ∧
    (applyOps (recycleOps [1, 2] [7, 8])).1.mFreeConnections = [] := by
  have h := C9_recycle [1, 2] [7, 8] rfl
  exact ⟨rfl, h.1, h.2.2.2⟩

end BansheeEvent
